import Mathlib

/-!
Verification of the Bit-C compiler (lexer, parser, optimizer, codegen).

Each definition below is a shallow embedding of the corresponding C++
function of the repository, translated clause by clause from the source
files `lexer.cpp`, `parser.cpp`, `optimizer.cpp`, `codegen.cpp` and the
headers `token.hpp`, `ast.hpp`.  C++ exceptions are modelled as `Except`
errors; the C++ `int` type is modelled as `Int` with explicit 32-bit
wrap-around where the source can overflow.
-/

set_option maxHeartbeats 1000000

/-! ## Token model (`token.hpp`) -/

/-- Token types, from the `TokenType` enum of `token.hpp`. -/
inductive TokenType
  | END_OF_FILE
  | UNKNOWN
  | INT_LITERAL
  | IDENTIFIER
  | INT_TYPE
  | RETURN
  | IF
  | WHILE
  | ADD_OP
  | SUB_OP
  | MULT_OP
  | DIV_OP
  | EQ_OP
  | EQ_CMP
  | NE_CMP
  | LT_CMP
  | GT_CMP
  | AND_CMP
  | OR_CMP
  | NOT_OP
  | SEMICOLON
  | L_PAREN
  | R_PAREN
  | L_BRACE
  | R_BRACE
  | COMMA
  deriving DecidableEq, Repr

/-- Source location (`Location` of `token.hpp`): 1-based line and column. -/
structure Location where
  line : Nat
  col : Nat
  deriving DecidableEq, Repr

/-- A token (`Token` of `token.hpp`); the lexeme view is modelled as an
owned string holding the same bytes. -/
structure Token where
  type : TokenType
  start : Location
  lexeme : String
  deriving DecidableEq, Repr

/-! ## Lexer (`lexer.cpp`) -/

/-- `std::isspace` in the C locale: space, \t, \n, \v, \f, \r. -/
def isspace (c : Char) : Bool :=
  c = ' ' || c = '\t' || c = '\n' || c = '\x0b' || c = '\x0c' || c = '\r'

/-- `std::isdigit` (ASCII). -/
def isdigit (c : Char) : Bool :=
  '0' ≤ c && c ≤ '9'

/-- `std::isalpha` (ASCII, C locale). -/
def isalpha (c : Char) : Bool :=
  ('a' ≤ c && c ≤ 'z') || ('A' ≤ c && c ≤ 'Z')

/-- `std::isalnum` (ASCII, C locale). -/
def isalnum (c : Char) : Bool :=
  isalpha c || isdigit c

/-- Character predicate of the identifier run in `string_to_tokens`:
`std::isalnum (input[i]) || input[i] == '_'`. -/
def isIdentChar (c : Char) : Bool :=
  isalnum c || c = '_'

/-- Keyword reclassification of an identifier lexeme
(`lexer.cpp`, lines 71-75). -/
def keywordType (lexeme : String) : TokenType :=
  if lexeme = "int" then .INT_TYPE
  else if lexeme = "return" then .RETURN
  else if lexeme = "if" then .IF
  else if lexeme = "while" then .WHILE
  else .IDENTIFIER

/-- The two-character operator table of `string_to_tokens`
(`lexer.cpp`, lines 87-90); `UNKNOWN` means no two-character match. -/
def twoCharType (c next : Char) : TokenType :=
  if c = '=' && next = '=' then .EQ_CMP
  else if c = '&' && next = '&' then .AND_CMP
  else if c = '|' && next = '|' then .OR_CMP
  else if c = '!' && next = '=' then .NE_CMP
  else .UNKNOWN

/-- The single-character switch of `string_to_tokens`
(`lexer.cpp`, lines 104-122).  Note the switch has no case for
the comma character, which therefore falls through to `UNKNOWN`. -/
def singleCharType (c : Char) : TokenType :=
  if c = '+' then .ADD_OP
  else if c = '-' then .SUB_OP
  else if c = '*' then .MULT_OP
  else if c = '/' then .DIV_OP
  else if c = '=' then .EQ_OP
  else if c = '<' then .LT_CMP
  else if c = '>' then .GT_CMP
  else if c = '!' then .NOT_OP
  else if c = ';' then .SEMICOLON
  else if c = '(' then .L_PAREN
  else if c = ')' then .R_PAREN
  else if c = '\x7b' then .L_BRACE
  else if c = '\x7d' then .R_BRACE
  else .UNKNOWN

/-- Main scanning loop of `Lexer::string_to_tokens` (`lexer.cpp`,
lines 21-133), recursing over the remaining input instead of the
index `i`.  Each recursive step mirrors one iteration of the C++
`while` loop and consumes at least one input character; `fuel` only
bounds the recursion depth (every iteration of the C++ loop makes
progress), so with `fuel ≥ input.length` the out-of-fuel branch is
unreachable.  On empty remaining input the trailing `END_OF_FILE`
token is appended at the current location. -/
def lexLoop (fuel : Nat) (input : List Char) (line col : Nat) : List Token :=
  match fuel, input with
  | _, [] => [⟨.END_OF_FILE, ⟨line, col⟩, ""⟩]
  | 0, _ :: _ => []
  | fuel + 1, c :: rest =>
    -- Skip whitespace
    if isspace c then
      if c = '\n' then lexLoop fuel rest (line + 1) 1
      else lexLoop fuel rest line (col + 1)
    -- Scan number
    else if isdigit c then
      let run := c :: rest.takeWhile isdigit
      let rest1 := rest.dropWhile isdigit
      ⟨.INT_LITERAL, ⟨line, col⟩, String.mk run⟩ ::
        lexLoop fuel rest1 line (col + run.length)
    -- Scan identifier or keyword
    else if isalpha c || c = '_' then
      let run := c :: rest.takeWhile isIdentChar
      let rest1 := rest.dropWhile isIdentChar
      let lexeme := String.mk run
      ⟨keywordType lexeme, ⟨line, col⟩, lexeme⟩ ::
        lexLoop fuel rest1 line (col + run.length)
    else
      -- Two-character operators
      match rest with
      | next :: rest2 =>
        if twoCharType c next ≠ .UNKNOWN then
          ⟨twoCharType c next, ⟨line, col⟩, String.mk [c, next]⟩ ::
            lexLoop fuel rest2 line (col + 2)
        else
          ⟨singleCharType c, ⟨line, col⟩, String.mk [c]⟩ ::
            lexLoop fuel rest line (col + 1)
      | [] =>
        ⟨singleCharType c, ⟨line, col⟩, String.mk [c]⟩ ::
          lexLoop fuel rest line (col + 1)

/-- `Lexer::string_to_tokens` on a raw input string
(`Lexer {in_str, false}` followed by `get_tokens`). -/
def string_to_tokens (input : String) : List Token :=
  lexLoop input.data.length input.data 1 1

/-! ## Abstract syntax tree (`ast.hpp`) -/

/-- `UnaryOp::Op` of `ast.hpp`. -/
inductive UnOp
  | NEGATE
  | NOT
  deriving DecidableEq, Repr

/-- `BinaryOp::Op` of `ast.hpp`. -/
inductive BOp
  | ADD
  | SUB
  | MUL
  | DIV
  | EQ
  | NE
  | LT
  | GT
  | AND
  | OR
  deriving DecidableEq, Repr

mutual

/-- Expression nodes of `ast.hpp` (`IntLiteral`, `Identifier`, `UnaryOp`,
`BinaryOp`), with child links inlined instead of `unique_ptr`.

`FuncCall` is modelled from the spec: the spec (§3.3) lists
`FuncCall { name, args: ordered sequence }` among the expression
variants, and both `codegen.cpp` and `optimizer.cpp` in this repository
pattern-match on a `FuncCall` alternative, but the `ast.hpp` present in
the tree omits it (the header is stale relative to its callers). -/
inductive Expr
  | IntLiteral (value : Int)
  | Identifier (name : String)
  | UnaryOp (op : UnOp) (operand : Expr)
  | BinaryOp (op : BOp) (left : Expr) (right : Expr)
  | FuncCall (name : String) (args : ExprList)
  deriving DecidableEq, Repr

/-- An ordered sequence of expressions (`std::vector<std::unique_ptr<Expr>>`),
as an explicit list type to keep mutual structural recursion simple. -/
inductive ExprList
  | nil
  | cons (head : Expr) (tail : ExprList)
  deriving DecidableEq, Repr

end

mutual

/-- Statement nodes of `ast.hpp` (`VarDecl`, `Assignment`, `ReturnStmt`,
`IfStmt`, `WhileStmt`, `Block`, `ExprStmt`).  A `Block` is its list of
statements (`Block { statements }`), written `StmtList`. -/
inductive Stmt
  | VarDecl (name : String) (init : Option Expr)
  | Assignment (name : String) (value : Expr)
  | ReturnStmt (value : Expr)
  | IfStmt (condition : Expr) (then_block : StmtList)
  | WhileStmt (condition : Expr) (body : StmtList)
  | BlockStmt (statements : StmtList)
  | ExprStmt (expression : Expr)
  deriving DecidableEq, Repr

/-- An ordered sequence of statements (`std::vector<Stmt>`, the contents
of a `Block`). -/
inductive StmtList
  | nil
  | cons (head : Stmt) (tail : StmtList)
  deriving DecidableEq, Repr

end

/-- Concatenation of statement sequences (used where `opt_block`
accumulates replacement statements). -/
def StmtList.append : StmtList → StmtList → StmtList
  | .nil, ys => ys
  | .cons x xs, ys => .cons x (StmtList.append xs ys)

/-- A function definition (`Function` of `ast.hpp`).

The `params` field is modelled from the spec: the spec (§3.3) gives
`Function { name, params: ordered sequence of (name), body: Block }` and
`codegen.cpp` (`gen_function`) iterates over `func.params`, but the
`ast.hpp` present in the tree omits the field (stale header).  The
parser in `parser.cpp` constructs functions without parameters, which
the embedding renders as `params = []`. -/
structure Function where
  name : String
  params : List String
  body : StmtList
  deriving DecidableEq, Repr

/-- A whole program (`Program` of `ast.hpp`). -/
structure Program where
  functions : List Function
  deriving DecidableEq, Repr

/-! ## Optimizer (`optimizer.cpp`) -/

/-- Two's-complement 32-bit wrap-around, modelling arithmetic on the C++
`int` type used by `Optimizer::fold_expr`. -/
def wrap32 (x : Int) : Int :=
  (x + 2 ^ 31) % 2 ^ 32 - 2 ^ 31

/-- The `BinaryOp` arm of the `switch` in `Optimizer::fold_expr`
(`optimizer.cpp`, lines 136-149): the folded value of `op` applied to
two constant operands, or `none` for a division whose folded divisor is
zero (`r != 0 ? … : std::nullopt`).  C++ `/` on `int` truncates toward
zero (`Int.div`). -/
def evalBOp (op : BOp) (l r : Int) : Option Int :=
  match op with
  | .ADD => some (wrap32 (l + r))
  | .SUB => some (wrap32 (l - r))
  | .MUL => some (wrap32 (l * r))
  | .DIV => if r ≠ 0 then some (wrap32 (Int.tdiv l r)) else none
  | .EQ => some (if l = r then 1 else 0)
  | .NE => some (if l ≠ r then 1 else 0)
  | .LT => some (if l < r then 1 else 0)
  | .GT => some (if l > r then 1 else 0)
  | .AND => some (if l ≠ 0 ∧ r ≠ 0 then 1 else 0)
  | .OR => some (if l ≠ 0 ∨ r ≠ 0 then 1 else 0)

mutual

/-- `Optimizer::fold_expr` (`optimizer.cpp`, lines 99-160).  The C++
function mutates the expression in place and returns the constant value
when the whole expression is constant; the embedding returns the
rewritten expression together with that optional value.  The final
replacement (`result.has_value () && !holds_alternative<IntLiteral>`)
is rendered per branch: a constant-valued `UnaryOp`/`BinaryOp` becomes
an `IntLiteral`, while an `IntLiteral` is left as is. -/
def fold_expr : Expr → Expr × Option Int
  | .IntLiteral v => (.IntLiteral v, some v)
  | .Identifier n => (.Identifier n, none)
  | .FuncCall n args => (.FuncCall n (foldArgs args), none)
  | .UnaryOp op e =>
    match fold_expr e with
    | (e1, none) => (.UnaryOp op e1, none)
    | (_, some x) =>
      let r := match op with
        | .NEGATE => wrap32 (-x)
        | .NOT => if x ≠ 0 then 0 else 1
      (.IntLiteral r, some r)
  | .BinaryOp op l r =>
    match fold_expr l, fold_expr r with
    | (l1, some a), (r1, some b) =>
      match evalBOp op a b with
      | some v => (.IntLiteral v, some v)
      | none =>
        -- only the DIV-by-zero case: both children were replaced by
        -- their literals in place but the node itself is preserved
        (.BinaryOp op l1 r1, none)
    | (l1, _), (r1, _) => (.BinaryOp op l1 r1, none)

/-- The `FuncCall` arm of `fold_expr`: fold every argument in place,
never fold the call itself (`optimizer.cpp`, lines 113-118). -/
def foldArgs : ExprList → ExprList
  | .nil => .nil
  | .cons e t => .cons (fold_expr e).1 (foldArgs t)

end

mutual

/-- `Optimizer::opt_stmt` (`optimizer.cpp`, lines 36-97): returns the
replacement statements for one statement (empty = remove, one or more =
substitute).  Only the `IfStmt` arm ever sets `replaced`; every other
arm returns the statement itself with its expressions folded in
place. -/
def opt_stmt : Stmt → StmtList
  | .VarDecl n (some e) => .cons (.VarDecl n (some (fold_expr e).1)) .nil
  | .VarDecl n none => .cons (.VarDecl n none) .nil
  | .Assignment n v => .cons (.Assignment n (fold_expr v).1) .nil
  | .ReturnStmt v => .cons (.ReturnStmt (fold_expr v).1) .nil
  | .IfStmt c tb =>
    -- Fold condition first, then recurse into the body
    match fold_expr c with
    | (_, some v) =>
      -- If always true: inline the (already optimized) block;
      -- always false: give no replacement
      if v ≠ 0 then .cons (.BlockStmt (opt_block tb)) .nil else .nil
    | (c1, none) => .cons (.IfStmt c1 (opt_block tb)) .nil
  | .WhileStmt c b => .cons (.WhileStmt (fold_expr c).1 (opt_block b)) .nil
  | .BlockStmt b => .cons (.BlockStmt (opt_block b)) .nil
  | .ExprStmt e => .cons (.ExprStmt (fold_expr e).1) .nil

/-- `Optimizer::opt_block` (`optimizer.cpp`, lines 24-34): rebuild the
statement sequence from each statement's replacements. -/
def opt_block : StmtList → StmtList
  | .nil => .nil
  | .cons s rest => StmtList.append (opt_stmt s) (opt_block rest)

end

/-- `Optimizer::opt_function` (`optimizer.cpp`, lines 19-22). -/
def opt_function (f : Function) : Function :=
  { f with body := opt_block f.body }

/-- `Optimizer::optimize` (`optimizer.cpp`, lines 12-16); the C++
in-place mutation is rendered as returning the rewritten program. -/
def optimize (program : Program) : Program :=
  ⟨program.functions.map opt_function⟩

/-! ## Parser (`parser.cpp`, `parser.hpp`) -/

/-- `MAX_ID_LEN` of `parser.hpp`. -/
def MAX_ID_LEN : Nat := 32

/-- The ways `Parser::parse` can terminate abnormally.  `ParseError` is
the exception class of `parser.hpp` (message and offending location);
the two `Stoi…` alternatives are the exceptions `std::stoi` can throw
out of `Parser::primary` (`parser.cpp`, line 189), which the parser
does not catch; `FuelExhausted` is an artefact of the fuel-bounded
embedding and is unreachable when the recursion-depth bound is large
enough for the input. -/
inductive ParseExc
  | ParseError (message : String) (loc : Location)
  | StoiOutOfRange
  | StoiInvalidArg
  | FuelExhausted
  deriving DecidableEq, Repr

/-- Value of a nonempty digit run, most significant digit first. -/
def digitsVal (l : List Char) : Nat :=
  l.foldl (fun acc c => acc * 10 + (c.toNat - 48)) 0

/-- `std::stoi` as called by `Parser::primary` on an `INT_LITERAL`
lexeme.  Lexer-produced literal lexemes are nonempty digit runs, for
which `stoi` returns the value when it fits in a 32-bit signed `int`
and throws `std::out_of_range` otherwise; on a lexeme with no leading
digits it throws `std::invalid_argument`.  (Leading whitespace and
signs, which lexer lexemes never contain, are not modelled.) -/
def stoi (s : String) : Except ParseExc Int :=
  let digits := s.data.takeWhile isdigit
  if digits.isEmpty then .error .StoiInvalidArg
  else if digitsVal digits ≤ 2147483647 then .ok (digitsVal digits)
  else .error .StoiOutOfRange

/-- Fallback token for an out-of-range `tokens_[i]` access.  On every
`END_OF_FILE`-terminated stream (all lexer outputs) the parser never
reads past the end, so this default is never produced. -/
def eofTok : Token := ⟨.END_OF_FILE, ⟨0, 0⟩, ""⟩

/-- `Parser::peek` (`parser.cpp`, lines 13-16). -/
def peek (ts : List Token) (cur : Nat) : Token :=
  ts.getD cur eofTok

/-- `Parser::prev` (`parser.cpp`, lines 26-29). -/
def prevTok (ts : List Token) (cur : Nat) : Token :=
  ts.getD (cur - 1) eofTok

/-- `Parser::is_at_end` (`parser.cpp`, lines 31-34). -/
def is_at_end (ts : List Token) (cur : Nat) : Bool :=
  (peek ts cur).type = .END_OF_FILE

/-- `Parser::next` (`parser.cpp`, lines 18-24): advance unless at end,
then return the token before the new position. -/
def nextTok (ts : List Token) (cur : Nat) : Token × Nat :=
  if is_at_end ts cur then (prevTok ts cur, cur)
  else (peek ts cur, cur + 1)

/-- `Parser::check` (`parser.cpp`, lines 36-42). -/
def check (ts : List Token) (cur : Nat) (t : TokenType) : Bool :=
  if is_at_end ts cur then false
  else (peek ts cur).type = t

/-- `Parser::match` (`parser.cpp`, lines 44-52): consume the current
token if it has the wanted type. -/
def matchTok (ts : List Token) (cur : Nat) (t : TokenType) : Bool × Nat :=
  if check ts cur t then (true, cur + 1) else (false, cur)

/-- `Parser::expect` (`parser.cpp`, lines 54-60): return and consume
the current token if it has the wanted type, else throw a `ParseError`
carrying `msg` and the current token's location. -/
def expect (ts : List Token) (cur : Nat) (t : TokenType) (msg : String) :
    Except ParseExc (Token × Nat) :=
  if check ts cur t then .ok (peek ts cur, cur + 1)
  else .error (.ParseError msg (peek ts cur).start)

mutual

/-- `Parser::expression` (`parser.cpp`, lines 63-66).  Throughout the
parser embedding, `fuel` bounds the recursion depth only; the C++
recursive descent always consumes input before recursing, so a fuel of
the order of the token count makes `FuelExhausted` unreachable. -/
def expression : Nat → List Token → Nat → Except ParseExc (Expr × Nat)
  | 0, _, _ => .error .FuelExhausted
  | fuel + 1, ts, cur => logic_or fuel ts cur
termination_by structural fuel _ts _cur => fuel

/-- `Parser::logic_or` (`parser.cpp`, lines 68-82). -/
def logic_or : Nat → List Token → Nat → Except ParseExc (Expr × Nat)
  | 0, _, _ => .error .FuelExhausted
  | fuel + 1, ts, cur => do
    let (left, cur) ← logic_and fuel ts cur
    logic_or_loop fuel ts cur left
termination_by structural fuel _ts _cur => fuel

/-- The `while (match (OR_CMP))` loop of `Parser::logic_or`. -/
def logic_or_loop : Nat → List Token → Nat → Expr → Except ParseExc (Expr × Nat)
  | 0, _, _, _ => .error .FuelExhausted
  | fuel + 1, ts, cur, left =>
    let (m, cur1) := matchTok ts cur .OR_CMP
    if m then do
      let (right, cur2) ← logic_and fuel ts cur1
      logic_or_loop fuel ts cur2 (.BinaryOp .OR left right)
    else .ok (left, cur)
termination_by structural fuel _ts _cur => fuel

/-- `Parser::logic_and` (`parser.cpp`, lines 84-98). -/
def logic_and : Nat → List Token → Nat → Except ParseExc (Expr × Nat)
  | 0, _, _ => .error .FuelExhausted
  | fuel + 1, ts, cur => do
    let (left, cur) ← comparison fuel ts cur
    logic_and_loop fuel ts cur left
termination_by structural fuel _ts _cur => fuel

/-- The `while (match (AND_CMP))` loop of `Parser::logic_and`. -/
def logic_and_loop : Nat → List Token → Nat → Expr → Except ParseExc (Expr × Nat)
  | 0, _, _, _ => .error .FuelExhausted
  | fuel + 1, ts, cur, left =>
    let (m, cur1) := matchTok ts cur .AND_CMP
    if m then do
      let (right, cur2) ← comparison fuel ts cur1
      logic_and_loop fuel ts cur2 (.BinaryOp .AND left right)
    else .ok (left, cur)
termination_by structural fuel _ts _cur => fuel

/-- `Parser::comparison` (`parser.cpp`, lines 100-120). -/
def comparison : Nat → List Token → Nat → Except ParseExc (Expr × Nat)
  | 0, _, _ => .error .FuelExhausted
  | fuel + 1, ts, cur => do
    let (left, cur) ← addition fuel ts cur
    comparison_loop fuel ts cur left
termination_by structural fuel _ts _cur => fuel

/-- The operator loop of `Parser::comparison`, trying `==`, `!=`, `<`,
`>` in the source's order. -/
def comparison_loop : Nat → List Token → Nat → Expr → Except ParseExc (Expr × Nat)
  | 0, _, _, _ => .error .FuelExhausted
  | fuel + 1, ts, cur, left =>
    let (m1, c1) := matchTok ts cur .EQ_CMP
    if m1 then do
      let (right, cur2) ← addition fuel ts c1
      comparison_loop fuel ts cur2 (.BinaryOp .EQ left right)
    else
      let (m2, c2) := matchTok ts cur .NE_CMP
      if m2 then do
        let (right, cur2) ← addition fuel ts c2
        comparison_loop fuel ts cur2 (.BinaryOp .NE left right)
      else
        let (m3, c3) := matchTok ts cur .LT_CMP
        if m3 then do
          let (right, cur2) ← addition fuel ts c3
          comparison_loop fuel ts cur2 (.BinaryOp .LT left right)
        else
          let (m4, c4) := matchTok ts cur .GT_CMP
          if m4 then do
            let (right, cur2) ← addition fuel ts c4
            comparison_loop fuel ts cur2 (.BinaryOp .GT left right)
          else .ok (left, cur)
termination_by structural fuel _ts _cur => fuel

/-- `Parser::addition` (`parser.cpp`, lines 122-140). -/
def addition : Nat → List Token → Nat → Except ParseExc (Expr × Nat)
  | 0, _, _ => .error .FuelExhausted
  | fuel + 1, ts, cur => do
    let (left, cur) ← multiplication fuel ts cur
    addition_loop fuel ts cur left
termination_by structural fuel _ts _cur => fuel

/-- The operator loop of `Parser::addition` (`+`, then `-`). -/
def addition_loop : Nat → List Token → Nat → Expr → Except ParseExc (Expr × Nat)
  | 0, _, _, _ => .error .FuelExhausted
  | fuel + 1, ts, cur, left =>
    let (m1, c1) := matchTok ts cur .ADD_OP
    if m1 then do
      let (right, cur2) ← multiplication fuel ts c1
      addition_loop fuel ts cur2 (.BinaryOp .ADD left right)
    else
      let (m2, c2) := matchTok ts cur .SUB_OP
      if m2 then do
        let (right, cur2) ← multiplication fuel ts c2
        addition_loop fuel ts cur2 (.BinaryOp .SUB left right)
      else .ok (left, cur)
termination_by structural fuel _ts _cur => fuel

/-- `Parser::multiplication` (`parser.cpp`, lines 142-160). -/
def multiplication : Nat → List Token → Nat → Except ParseExc (Expr × Nat)
  | 0, _, _ => .error .FuelExhausted
  | fuel + 1, ts, cur => do
    let (left, cur) ← unary fuel ts cur
    multiplication_loop fuel ts cur left
termination_by structural fuel _ts _cur => fuel

/-- The operator loop of `Parser::multiplication` (`*`, then `/`). -/
def multiplication_loop : Nat → List Token → Nat → Expr → Except ParseExc (Expr × Nat)
  | 0, _, _, _ => .error .FuelExhausted
  | fuel + 1, ts, cur, left =>
    let (m1, c1) := matchTok ts cur .MULT_OP
    if m1 then do
      let (right, cur2) ← unary fuel ts c1
      multiplication_loop fuel ts cur2 (.BinaryOp .MUL left right)
    else
      let (m2, c2) := matchTok ts cur .DIV_OP
      if m2 then do
        let (right, cur2) ← unary fuel ts c2
        multiplication_loop fuel ts cur2 (.BinaryOp .DIV left right)
      else .ok (left, cur)
termination_by structural fuel _ts _cur => fuel

/-- `Parser::unary` (`parser.cpp`, lines 162-181). -/
def unary : Nat → List Token → Nat → Except ParseExc (Expr × Nat)
  | 0, _, _ => .error .FuelExhausted
  | fuel + 1, ts, cur =>
    let (m1, c1) := matchTok ts cur .SUB_OP
    if m1 then do
      let (operand, cur2) ← unary fuel ts c1
      .ok (.UnaryOp .NEGATE operand, cur2)
    else
      let (m2, c2) := matchTok ts cur .NOT_OP
      if m2 then do
        let (operand, cur2) ← unary fuel ts c2
        .ok (.UnaryOp .NOT operand, cur2)
      else primary fuel ts cur
termination_by structural fuel _ts _cur => fuel

/-- `Parser::primary` (`parser.cpp`, lines 183-211).  Note there is no
call-expression production: `primary` recognises only integer literals,
bare identifiers and parenthesized expressions, and the integer-literal
case converts the lexeme with `std::stoi`, whose exceptions escape. -/
def primary : Nat → List Token → Nat → Except ParseExc (Expr × Nat)
  | 0, _, _ => .error .FuelExhausted
  | fuel + 1, ts, cur =>
    let (m1, c1) := matchTok ts cur .INT_LITERAL
    if m1 then do
      let v ← stoi (prevTok ts c1).lexeme
      .ok (.IntLiteral v, c1)
    else
      let (m2, c2) := matchTok ts cur .IDENTIFIER
      if m2 then .ok (.Identifier (prevTok ts c2).lexeme, c2)
      else
        let (m3, c3) := matchTok ts cur .L_PAREN
        if m3 then do
          let (e, cur2) ← expression fuel ts c3
          let (_, cur3) ← expect ts cur2 .R_PAREN "expected \x27)\x27 after expression"
          .ok (e, cur3)
        else .error (.ParseError "expected expression" (peek ts cur).start)
termination_by structural fuel _ts _cur => fuel

end

mutual

/-- `Parser::statement` (`parser.cpp`, lines 214-235). -/
def statement : Nat → List Token → Nat → Except ParseExc (Stmt × Nat)
  | 0, _, _ => .error .FuelExhausted
  | fuel + 1, ts, cur =>
    if check ts cur .INT_TYPE then declaration fuel ts cur
    else if check ts cur .RETURN then return_statement fuel ts cur
    else if check ts cur .IF then if_statement fuel ts cur
    else if check ts cur .WHILE then while_statement fuel ts cur
    else if check ts cur .L_BRACE then do
      let (b, cur2) ← block fuel ts cur
      .ok (.BlockStmt b, cur2)
    else assignment_or_expr_stmt fuel ts cur
termination_by structural fuel _ts _cur => fuel

/-- `Parser::declaration` (`parser.cpp`, lines 237-256). -/
def declaration : Nat → List Token → Nat → Except ParseExc (Stmt × Nat)
  | 0, _, _ => .error .FuelExhausted
  | fuel + 1, ts, cur => do
    let (_, cur) ← expect ts cur .INT_TYPE "expected \x27int\x27"
    let (name_tok, cur) ← expect ts cur .IDENTIFIER "expected variable name"
    if name_tok.lexeme.length > MAX_ID_LEN then
      .error (.ParseError "identifier exceeds maximum length" name_tok.start)
    else
      let (m, cur) := matchTok ts cur .EQ_OP
      if m then do
        let (e, cur) ← expression fuel ts cur
        let (_, cur) ← expect ts cur .SEMICOLON "expected \x27;\x27 after declaration"
        .ok (.VarDecl name_tok.lexeme (some e), cur)
      else do
        let (_, cur) ← expect ts cur .SEMICOLON "expected \x27;\x27 after declaration"
        .ok (.VarDecl name_tok.lexeme none, cur)

/-- `Parser::assignment_or_expr_stmt` (`parser.cpp`, lines 258-277):
one token of lookahead distinguishes `identifier = …;` from an
expression statement. -/
def assignment_or_expr_stmt : Nat → List Token → Nat → Except ParseExc (Stmt × Nat)
  | 0, _, _ => .error .FuelExhausted
  | fuel + 1, ts, cur =>
    if check ts cur .IDENTIFIER && cur + 1 < ts.length &&
        (ts.getD (cur + 1) eofTok).type = .EQ_OP then do
      let (name_tok, cur1) := nextTok ts cur
      let (_, cur2) := nextTok ts cur1
      let (value, cur3) ← expression fuel ts cur2
      let (_, cur4) ← expect ts cur3 .SEMICOLON "expected \x27;\x27 after assignment"
      .ok (.Assignment name_tok.lexeme value, cur4)
    else do
      let (e, cur1) ← expression fuel ts cur
      let (_, cur2) ← expect ts cur1 .SEMICOLON "expected \x27;\x27 after expression"
      .ok (.ExprStmt e, cur2)

/-- `Parser::return_statement` (`parser.cpp`, lines 279-285). -/
def return_statement : Nat → List Token → Nat → Except ParseExc (Stmt × Nat)
  | 0, _, _ => .error .FuelExhausted
  | fuel + 1, ts, cur => do
    let (_, cur) ← expect ts cur .RETURN "expected \x27return\x27"
    let (value, cur) ← expression fuel ts cur
    let (_, cur) ← expect ts cur .SEMICOLON "expected \x27;\x27 after return value"
    .ok (.ReturnStmt value, cur)

/-- `Parser::if_statement` (`parser.cpp`, lines 287-295). -/
def if_statement : Nat → List Token → Nat → Except ParseExc (Stmt × Nat)
  | 0, _, _ => .error .FuelExhausted
  | fuel + 1, ts, cur => do
    let (_, cur) ← expect ts cur .IF "expected \x27if\x27"
    let (_, cur) ← expect ts cur .L_PAREN "expected \x27(\x27 after \x27if\x27"
    let (condition, cur) ← expression fuel ts cur
    let (_, cur) ← expect ts cur .R_PAREN "expected \x27)\x27 after if condition"
    let (then_block, cur) ← block fuel ts cur
    .ok (.IfStmt condition then_block, cur)
termination_by structural fuel _ts _cur => fuel

/-- `Parser::while_statement` (`parser.cpp`, lines 297-305). -/
def while_statement : Nat → List Token → Nat → Except ParseExc (Stmt × Nat)
  | 0, _, _ => .error .FuelExhausted
  | fuel + 1, ts, cur => do
    let (_, cur) ← expect ts cur .WHILE "expected \x27while\x27"
    let (_, cur) ← expect ts cur .L_PAREN "expected \x27(\x27 after \x27while\x27"
    let (condition, cur) ← expression fuel ts cur
    let (_, cur) ← expect ts cur .R_PAREN "expected \x27)\x27 after while condition"
    let (body, cur) ← block fuel ts cur
    .ok (.WhileStmt condition body, cur)
termination_by structural fuel _ts _cur => fuel

/-- `Parser::block` (`parser.cpp`, lines 307-318). -/
def block : Nat → List Token → Nat → Except ParseExc (StmtList × Nat)
  | 0, _, _ => .error .FuelExhausted
  | fuel + 1, ts, cur => do
    let (_, cur) ← expect ts cur .L_BRACE "expected \x27\x7b\x27"
    let (stmts, cur) ← block_loop fuel ts cur
    let (_, cur) ← expect ts cur .R_BRACE "expected \x27\x7d\x27"
    .ok (stmts, cur)
termination_by structural fuel _ts _cur => fuel

/-- The statement loop of `Parser::block`
(`while (!check (R_BRACE) && !is_at_end ())`). -/
def block_loop : Nat → List Token → Nat → Except ParseExc (StmtList × Nat)
  | 0, _, _ => .error .FuelExhausted
  | fuel + 1, ts, cur =>
    if !check ts cur .R_BRACE && !is_at_end ts cur then do
      let (s, cur1) ← statement fuel ts cur
      let (rest, cur2) ← block_loop fuel ts cur1
      .ok (.cons s rest, cur2)
    else .ok (.nil, cur)
termination_by structural fuel _ts _cur => fuel

/-- `Parser::function` (`parser.cpp`, lines 321-339).  Note the source
expects `(` immediately followed by `)`: no parameter list is parsed,
so the resulting `Function` has no parameters. -/
def function : Nat → List Token → Nat → Except ParseExc (Function × Nat)
  | 0, _, _ => .error .FuelExhausted
  | fuel + 1, ts, cur => do
    let (_, cur) ← expect ts cur .INT_TYPE "expected \x27int\x27 return type"
    let (name_tok, cur) ← expect ts cur .IDENTIFIER "expected function name"
    if name_tok.lexeme.length > MAX_ID_LEN then
      .error (.ParseError "function name exceeds maximum length" name_tok.start)
    else do
      let (_, cur) ← expect ts cur .L_PAREN "expected \x27(\x27 after function name"
      let (_, cur) ← expect ts cur .R_PAREN "expected \x27)\x27 after parameters"
      let (body, cur) ← block fuel ts cur
      .ok (⟨name_tok.lexeme, [], body⟩, cur)

/-- The `while (!is_at_end ())` loop of `Parser::parse`. -/
def parse_loop : Nat → List Token → Nat → Except ParseExc (List Function × Nat)
  | 0, _, _ => .error .FuelExhausted
  | fuel + 1, ts, cur =>
    if !is_at_end ts cur then do
      let (f, cur1) ← function fuel ts cur
      let (fns, cur2) ← parse_loop fuel ts cur1
      .ok (f :: fns, cur2)
    else .ok ([], cur)
termination_by structural fuel _ts _cur => fuel

end

/-- `Parser::parse` (`parser.cpp`, lines 341-349), with a recursion
budget comfortably above the depth any parse of `ts` can reach. -/
def parse (ts : List Token) : Except ParseExc Program :=
  match parse_loop (64 * (ts.length + 1)) ts 0 with
  | .ok (fns, _) => .ok ⟨fns⟩
  | .error e => .error e

/-- One step of decimal printing: most-significant digits first.  The
fuel only bounds recursion depth (`n / 10` strictly decreases), so any
fuel above the digit count is enough. -/
def natDecAux (fuel n : Nat) : List Char :=
  match fuel with
  | 0 => []
  | fuel + 1 =>
    if n < 10 then [Char.ofNat (48 + n)]
    else natDecAux fuel (n / 10) ++ [Char.ofNat (48 + n % 10)]

/-- `std::to_string` on the non-negative label counter: the decimal
digits of `n`, most significant first. -/
def natToDec (n : Nat) : String :=
  String.mk (natDecAux (n + 1) n)

/-! ## Code generator (`codegen.cpp`, `codegen.hpp`) -/

/-- The ways codegen can terminate abnormally.  `GenError` is the
exception class of `codegen.hpp`; `OutOfRange` is the `std::out_of_range`
thrown by `unordered_map::at` when `var_offsets_.at (name)` misses
(`codegen.cpp`, lines 198 and 314), which `Codegen` does not catch. -/
inductive GenExc
  | GenError (msg : String)
  | OutOfRange
  deriving DecidableEq, Repr

/-- Mutable state of the `Codegen` class (`codegen.hpp`): label counter,
emitted lines, variable-offset map, next offset, the three-slot scratch
register busy flags (`rbx`, `r12`, `r13`) and the per-function epilogue
label. -/
structure CGState where
  label_counter : Nat
  next_var_offset : Int
  reg_used0 : Bool
  reg_used1 : Bool
  reg_used2 : Bool
  var_offsets : List (String × Int)
  epilogue_label : String
  lines : List String
  deriving DecidableEq, Repr

/-- `reg32` of `codegen.cpp` (lines 19-25). -/
def reg32 (reg64 : String) : String :=
  if reg64 = "rbx" then "ebx"
  else if reg64 = "r12" then "r12d"
  else if reg64 = "r13" then "r13d"
  else ""

/-- `reg8` of `codegen.cpp` (lines 31-37). -/
def reg8 (reg64 : String) : String :=
  if reg64 = "rbx" then "bl"
  else if reg64 = "r12" then "r12b"
  else if reg64 = "r13" then "r13b"
  else ""

/-- `Codegen::emit` (append one assembly line). -/
def emit (line : String) (s : CGState) : CGState :=
  { s with lines := s.lines ++ [line] }

/-- `Codegen::alloc_reg` (`codegen.cpp`, lines 69-80): first free
scratch register in pool order `rbx`, `r12`, `r13`, or `""` if all
three are busy. -/
def alloc_reg (s : CGState) : String × CGState :=
  if !s.reg_used0 then ("rbx", { s with reg_used0 := true })
  else if !s.reg_used1 then ("r12", { s with reg_used1 := true })
  else if !s.reg_used2 then ("r13", { s with reg_used2 := true })
  else ("", s)

/-- `Codegen::free_reg` (`codegen.cpp`, lines 85-95): no-op for any
string that is not a pool register (in particular `""`). -/
def free_reg (reg : String) (s : CGState) : CGState :=
  if reg = "rbx" then { s with reg_used0 := false }
  else if reg = "r12" then { s with reg_used1 := false }
  else if reg = "r13" then { s with reg_used2 := false }
  else s

/-- Lookup in the variable-offset map (`std::unordered_map::at`
semantics); the map is modelled as an association list where insertion
prepends, so the first match is the live binding. -/
def offsets_at : List (String × Int) → String → Option Int
  | [], _ => none
  | (n, off) :: rest, k => if n = k then some off else offsets_at rest k

/-- The 64-bit argument registers of the `FuncCall` arm
(`codegen.cpp`, lines 364-365). -/
def arg_regs_64 : List String := ["rdi", "rsi", "rdx", "rcx", "r8", "r9"]

/-- The 32-bit ABI argument registers of `gen_function`
(`codegen.cpp`, line 119). -/
def arg_regs : List String := ["edi", "esi", "edx", "ecx", "r8d", "r9d"]

/-- The reverse pop loop of the `FuncCall` arm (`codegen.cpp`, lines
383-384): pop arguments into `arg_regs_64[n-1], …, arg_regs_64[0]`. -/
def pop_args : Nat → CGState → CGState
  | 0, s => s
  | n + 1, s => pop_args n (emit ("    pop " ++ arg_regs_64.getD n "") s)

/-- Length of an expression sequence (`node.args.size ()`). -/
def ExprList.length : ExprList → Nat
  | .nil => 0
  | .cons _ t => 1 + ExprList.length t

/-- The operator `switch` of the `BinaryOp` arm of `Codegen::gen_expr`
(`codegen.cpp`, lines 418-470), emitting over the operand value names
`l_val`/`r_val` (a scratch register, or `eax`/`ecx` for spilled
operands) and their 8-bit forms. -/
def op_emit (op : BOp) (l_val r_val l8 r8v : String) (s : CGState) : CGState :=
  match op with
  | .ADD => emit ("    add " ++ l_val ++ ", " ++ r_val) s
  | .SUB => emit ("    sub " ++ l_val ++ ", " ++ r_val) s
  | .MUL => emit ("    imul " ++ l_val ++ ", " ++ r_val) s
  | .DIV =>
    -- idiv requires the dividend in eax, bounce left in
    let s := if l_val ≠ "eax" then emit ("    mov eax, " ++ l_val) s else s
    let s := emit "    cdq" s
    let s := emit ("    idiv " ++ r_val) s
    if l_val ≠ "eax" then emit ("    mov " ++ l_val ++ ", eax") s else s
  | .EQ =>
    let s := emit ("    cmp " ++ l_val ++ ", " ++ r_val) s
    let s := emit ("    sete " ++ l8) s
    emit ("    movzx " ++ l_val ++ ", " ++ l8) s
  | .NE =>
    let s := emit ("    cmp " ++ l_val ++ ", " ++ r_val) s
    let s := emit ("    setne " ++ l8) s
    emit ("    movzx " ++ l_val ++ ", " ++ l8) s
  | .LT =>
    let s := emit ("    cmp " ++ l_val ++ ", " ++ r_val) s
    let s := emit ("    setl " ++ l8) s
    emit ("    movzx " ++ l_val ++ ", " ++ l8) s
  | .GT =>
    let s := emit ("    cmp " ++ l_val ++ ", " ++ r_val) s
    let s := emit ("    setg " ++ l8) s
    emit ("    movzx " ++ l_val ++ ", " ++ l8) s
  | .AND =>
    let s := emit ("    test " ++ l_val ++ ", " ++ l_val) s
    let s := emit ("    setne " ++ l8) s
    let s := emit ("    test " ++ r_val ++ ", " ++ r_val) s
    let s := emit ("    setne " ++ r8v) s
    let s := emit ("    and " ++ l8 ++ ", " ++ r8v) s
    emit ("    movzx " ++ l_val ++ ", " ++ l8) s
  | .OR =>
    let s := emit ("    or " ++ l_val ++ ", " ++ r_val) s
    let s := emit ("    test " ++ l_val ++ ", " ++ l_val) s
    let s := emit ("    setne " ++ l8) s
    emit ("    movzx " ++ l_val ++ ", " ++ l8) s

mutual

/-- `Codegen::gen_expr` (`codegen.cpp`, lines 294-503): evaluate an
expression, returning the scratch register now holding the result, or
`""` when all registers were busy and the value was pushed onto the
runtime stack. -/
def gen_expr : Expr → CGState → Except GenExc (String × CGState)
  | .IntLiteral v, s =>
    let (dest, s1) := alloc_reg s
    if dest = "" then .ok ("", emit ("    push " ++ toString v) s1)
    else .ok (dest, emit ("    mov " ++ reg32 dest ++ ", " ++ toString v) s1)
  | .Identifier n, s =>
    match offsets_at s.var_offsets n with
    | none => .error .OutOfRange
    | some off =>
      let (dest, s1) := alloc_reg s
      if dest = "" then
        .ok ("", emit "    push rax"
          (emit ("    mov eax, DWORD PTR [rbp +" ++ toString off ++ "]") s1))
      else
        .ok (dest, emit ("    mov " ++ reg32 dest ++ ", DWORD PTR [rbp +" ++
          toString off ++ "]") s1)
  | .UnaryOp op e, s => do
    let (operand_reg, s1) ← gen_expr e s
    if operand_reg ≠ "" then
      -- Operate in place on the scratch register
      let r := reg32 operand_reg
      let r8v := reg8 operand_reg
      match op with
      | .NEGATE => .ok (operand_reg, emit ("    neg " ++ r) s1)
      | .NOT =>
        let s2 := emit ("    test " ++ r ++ ", " ++ r) s1
        let s3 := emit ("    sete " ++ r8v) s2
        .ok (operand_reg, emit ("    movzx " ++ r ++ ", " ++ r8v) s3)
    else
      -- Spilled path: use stack
      let s2 := emit "    pop rax" s1
      let s3 :=
        match op with
        | .NEGATE => emit "    neg eax" s2
        | .NOT =>
          emit "    movzx eax, al" (emit "    sete al" (emit "    test eax, eax" s2))
      .ok ("", emit "    push rax" s3)
  | .FuncCall n args, s =>
    if args.length > 6 then
      .error (.GenError ("Call to \x27" ++ n ++ "\x27 has more than 6 arguments"))
    else do
      let s1 ← gen_args args s
      -- Pop args into argument registers in reverse
      let s2 := pop_args args.length s1
      let s3 := emit ("    call " ++ n) s2
      -- Store the return value (rax/eax) into a scratch register or spill
      let (dest, s4) := alloc_reg s3
      if dest = "" then .ok ("", emit "    push rax" s4)
      else .ok (dest, emit ("    mov " ++ reg32 dest ++ ", eax") s4)
  | .BinaryOp op l r, s => do
    -- Evaluate left, then right (right eval may use registers left holds)
    let (left_reg, s1) ← gen_expr l s
    let (right_reg, s2) ← gen_expr r s1
    -- Only fall back to eax/ecx when the value was spilled to the stack;
    -- right is popped before left to respect push order
    let s3 := if right_reg = "" then emit "    pop rcx" s2 else s2
    let r_val := if right_reg = "" then "ecx" else reg32 right_reg
    let s4 := if left_reg = "" then emit "    pop rax" s3 else s3
    let l_val := if left_reg = "" then "eax" else reg32 left_reg
    let l8 := if left_reg = "" then "al" else reg8 left_reg
    let r8v := if right_reg = "" then "cl" else reg8 right_reg
    let s5 := op_emit op l_val r_val l8 r8v s4
    -- Prefer ret in left_reg, then right_reg, then alloc/spill
    if left_reg ≠ "" then
      -- Result already sits in left_reg
      .ok (left_reg, free_reg right_reg s5)
    else if right_reg ≠ "" then
      -- Left was spilled so result is in eax; reuse right_reg
      .ok (right_reg, emit ("    mov " ++ r_val ++ ", eax") s5)
    else
      -- Both were spilled; result in eax
      let (dest, s6) := alloc_reg s5
      if dest = "" then .ok ("", emit "    push rax" s6)
      else .ok (dest, emit ("    mov " ++ reg32 dest ++ ", eax") s6)

/-- The argument loop of the `FuncCall` arm (`codegen.cpp`, lines
370-379): evaluate each argument left to right and immediately push
register-resident results, freeing their slots. -/
def gen_args : ExprList → CGState → Except GenExc CGState
  | .nil, s => .ok s
  | .cons a t, s => do
    let (arg_reg, s1) ← gen_expr a s
    let s2 :=
      if arg_reg ≠ "" then free_reg arg_reg (emit ("    push " ++ arg_reg) s1)
      else s1
    gen_args t s2

end

mutual

/-- `Codegen::gen_stmt` (`codegen.cpp`, lines 148-287). -/
def gen_stmt : Stmt → CGState → Except GenExc CGState
  | .ReturnStmt value, s => do
    let (reg, s1) ← gen_expr value s
    let s2 :=
      if reg ≠ "" then free_reg reg (emit ("    mov eax, " ++ reg32 reg) s1)
      else emit "    pop rax" s1
    .ok (emit ("    jmp " ++ s2.epilogue_label) s2)
  | .VarDecl n init, s =>
    let off := s.next_var_offset - 8
    let s1 := { s with
      next_var_offset := off
      var_offsets := (n, off) :: s.var_offsets }
    let s2 := emit "    sub rsp, 8" s1
    match init with
    | none => .ok s2
    | some e => do
      let (reg, s3) ← gen_expr e s2
      if reg ≠ "" then
        .ok (free_reg reg (emit ("    mov DWORD PTR [rbp +" ++ toString off ++
          "], " ++ reg32 reg) s3))
      else
        .ok (emit ("    mov DWORD PTR [rbp +" ++ toString off ++ "], eax")
          (emit "    pop rax" s3))
  | .Assignment n value, s => do
    let (reg, s1) ← gen_expr value s
    match offsets_at s1.var_offsets n with
    | none => .error .OutOfRange
    | some off =>
      if reg ≠ "" then
        .ok (free_reg reg (emit ("    mov DWORD PTR [rbp +" ++ toString off ++
          "], " ++ reg32 reg) s1))
      else
        .ok (emit ("    mov DWORD PTR [rbp +" ++ toString off ++ "], eax")
          (emit "    pop rax" s1))
  | .IfStmt condition then_block, s => do
    let else_label := ".L" ++ natToDec s.label_counter
    let end_label := ".L" ++ natToDec (s.label_counter + 1)
    let s1 := { s with label_counter := s.label_counter + 2 }
    let (reg, s2) ← gen_expr condition s1
    let s3 :=
      if reg ≠ "" then
        free_reg reg (emit ("    test " ++ reg32 reg ++ ", " ++ reg32 reg) s2)
      else emit "    test eax, eax" (emit "    pop rax" s2)
    let s4 := emit ("    je " ++ else_label) s3
    let s5 ← gen_block then_block s4
    let s6 := emit ("    jmp " ++ end_label) s5
    .ok (emit (end_label ++ ":") (emit (else_label ++ ":") s6))
  | .WhileStmt condition body, s => do
    let loop_label := ".L" ++ natToDec s.label_counter
    let end_label := ".L" ++ natToDec (s.label_counter + 1)
    let s1 := { s with label_counter := s.label_counter + 2 }
    let s2 := emit (loop_label ++ ":") s1
    let (reg, s3) ← gen_expr condition s2
    let s4 :=
      if reg ≠ "" then
        free_reg reg (emit ("    test " ++ reg32 reg ++ ", " ++ reg32 reg) s3)
      else emit "    test eax, eax" (emit "    pop rax" s3)
    let s5 := emit ("    je " ++ end_label) s4
    let s6 ← gen_block body s5
    let s7 := emit ("    jmp " ++ loop_label) s6
    .ok (emit (end_label ++ ":") s7)
  | .BlockStmt b, s => gen_block b s
  | .ExprStmt e, s => do
    let (reg, s1) ← gen_expr e s
    if reg = "" then .ok (emit "    pop rax" s1)
    else .ok (free_reg reg s1)

/-- `Codegen::gen_block` (`codegen.cpp`, lines 142-146). -/
def gen_block : StmtList → CGState → Except GenExc CGState
  | .nil, s => .ok s
  | .cons st rest, s => do
    let s1 ← gen_stmt st s
    gen_block rest s1

end

/-- The parameter-homing loop of `Codegen::gen_function`
(`codegen.cpp`, lines 120-127), with `i` the index of the first
parameter in `params`. -/
def gen_params : List String → Nat → CGState → CGState
  | [], _, s => s
  | p :: rest, i, s =>
    let off := s.next_var_offset - 8
    let s1 := { s with
      next_var_offset := off
      var_offsets := (p, off) :: s.var_offsets }
    let s2 := emit "    sub rsp, 8" s1
    let s3 := emit ("    mov DWORD PTR [rbp +" ++ toString off ++ "], " ++
      arg_regs.getD i "") s2
    gen_params rest (i + 1) s3

/-- `Codegen::gen_function` (`codegen.cpp`, lines 97-140): reset
per-function state, emit label and prologue, reject more than six
parameters, home the parameters, generate the body, then emit the
shared epilogue. -/
def gen_function (func : Function) (s : CGState) : Except GenExc CGState :=
  -- Reset per-function state
  let s0 := { s with
    var_offsets := []
    next_var_offset := -24
    reg_used0 := false
    reg_used1 := false
    reg_used2 := false
    epilogue_label := ".Lfunc_" ++ natToDec s.label_counter
    label_counter := s.label_counter + 1 }
  -- Label and prologue
  let s1 := emit "    push r13" (emit "    push r12" (emit "    push rbx"
    (emit "    mov rbp, rsp" (emit "    push rbp" (emit (func.name ++ ":") s0)))))
  -- Move parameters from ABI registers into local stack slots
  if func.params.length > 6 then
    .error (.GenError ("Function \x27" ++ func.name ++
      "\x27 has more than 6 parameters"))
  else do
    let s2 := gen_params func.params 0 s1
    -- Body
    let s3 ← gen_block func.body s2
    -- Epilogue: common return label jumped to by all ReturnStmt nodes
    .ok (emit "    ret" (emit "    pop rbp" (emit "    pop rbx"
      (emit "    pop r12" (emit "    pop r13"
      (emit "    lea rsp, [rbp - 24]" (emit (s3.epilogue_label ++ ":") s3)))))))

/-- The function loop of the `Codegen` constructor
(`codegen.cpp`, lines 57-58). -/
def gen_functions : List Function → CGState → Except GenExc CGState
  | [], s => .ok s
  | f :: rest, s => do
    let s1 ← gen_function f s
    gen_functions rest s1

/-- Initial state of the `Codegen` constructor (`codegen.cpp`, line 40):
label counter 2, offset 0, all scratch registers free. -/
def initCG : CGState :=
  ⟨2, 0, false, false, false, [], "", []⟩

/-- The `Codegen` constructor (`codegen.cpp`, lines 39-59): scan for
`main`, then generate every function in order. -/
def Codegen (prog : Program) : Except GenExc CGState :=
  if !prog.functions.any (fun f => f.name = "main") then
    .error (.GenError "No entry found")
  else gen_functions prog.functions initCG

/-- `Codegen::get_assembly` (`codegen.cpp`, lines 505-519): the fixed
header, a blank line, then the emitted lines joined by newlines with no
trailing newline. -/
def get_assembly (s : CGState) : String :=
  ".intel_syntax noprefix\n.global main\n\n" ++ String.intercalate "\n" s.lines

deriving instance DecidableEq for Except

/-! ## Claim theorems -/

/-- C10: whenever the scanner reaches a vertical-tab or form-feed byte
(which, not being a digit or identifier character, never extends a
digit or identifier run), the byte is skipped as whitespace: no token
is emitted for it and the column advances by one, because the lexer's
whitespace test is `std::isspace`. -/
theorem C10_vtab_ftab_skipped_as_whitespace :
    ∀ (fuel : Nat) (rest : List Char) (line col : Nat),
      lexLoop (fuel + 1) ('\x0b' :: rest) line col =
        lexLoop fuel rest line (col + 1) ∧
      lexLoop (fuel + 1) ('\x0c' :: rest) line col =
        lexLoop fuel rest line (col + 1) := by
  intro fuel rest line col
  constructor <;> simp [lexLoop, isspace]

/-- C5 (failing-input evaluation): lexing the one-byte input `,`
produces an `UNKNOWN` token with lexeme `","` of length 1, not a
`COMMA` token, because the single-character switch of
`Lexer::string_to_tokens` has no case for the comma byte. -/
theorem C5_comma_lexes_as_unknown :
    string_to_tokens "," =
      [⟨.UNKNOWN, ⟨1, 1⟩, ","⟩, ⟨.END_OF_FILE, ⟨1, 2⟩, ""⟩] ∧
    (string_to_tokens ",").map Token.type ≠ [.COMMA, .END_OF_FILE] := by
  constructor <;> decide

/-- C4 (failing-input evaluation): on the token stream of
`int main () { return 2147483648; }`, `Parser::parse` neither returns
a `Program` nor throws a `ParseError`: the out-of-range literal makes
`std::stoi` throw `std::out_of_range`, which escapes the parser. -/
theorem C4_out_of_range_literal_uncaught :
    parse (string_to_tokens "int main () \x7b return 2147483648; \x7d") =
      .error .StoiOutOfRange ∧
    ∀ msg loc,
      parse (string_to_tokens "int main () \x7b return 2147483648; \x7d") ≠
        .error (.ParseError msg loc) := by
  refine ⟨by decide, ?_⟩
  intro msg loc h
  rw [show parse (string_to_tokens "int main () \x7b return 2147483648; \x7d") =
    .error .StoiOutOfRange from by decide] at h
  simp at h

/-- C1 (failing-input evaluation): a program whose first function
definition has exactly 6 parameters does not compile: `Parser::function`
parses no parameter list at all (it expects `)` immediately after `(`),
so parsing already fails with a `ParseError` at the first parameter's
`int`, and codegen is never reached. -/
theorem C1_six_param_function_fails_to_parse :
    parse (string_to_tokens
      ("int f (int a, int b, int c, int d, int e, int g) " ++
       "\x7b return 1; \x7d int main () \x7b return 1; \x7d")) =
      .error (.ParseError "expected \x27)\x27 after parameters" ⟨1, 8⟩) := by
  decide

/-- C8: a division whose divisor is the literal zero is never folded:
`Optimizer::fold_expr` returns `nullopt` for it, so the division node
survives (with its left subtree folded in place as usual) instead of
being replaced by an `IntLiteral`. -/
theorem C8_div_by_literal_zero_not_folded :
    ∀ l : Expr, fold_expr (.BinaryOp .DIV l (.IntLiteral 0)) =
      (.BinaryOp .DIV (fold_expr l).1 (.IntLiteral 0), none) := by
  intro l
  cases h : fold_expr l with
  | mk e1 v =>
    cases v <;> simp [fold_expr, h, evalBOp]

/-- C6: when an `IfStmt` condition folds to a constant, `opt_stmt`
replaces the statement by a `Block` holding the (recursively optimized)
then-branch statements if the constant is nonzero and removes it
entirely if the constant is zero; a `WhileStmt` is never removed, even
when its condition folds to zero. -/
theorem C6_if_folding_and_while_never_removed :
    ∀ (c : Expr) (tb : StmtList) (v : Int),
      (fold_expr c).2 = some v →
      (opt_stmt (.IfStmt c tb) =
        if v ≠ 0 then .cons (.BlockStmt (opt_block tb)) .nil else .nil) ∧
      ∀ (c2 : Expr) (b : StmtList),
        opt_stmt (.WhileStmt c2 b) =
          .cons (.WhileStmt (fold_expr c2).1 (opt_block b)) .nil := by
  intro c tb v h
  refine ⟨?_, fun c2 b => by simp [opt_stmt]⟩
  cases hf : fold_expr c with
  | mk e1 v1 =>
    rw [hf] at h
    simp at h
    subst h
    simp [opt_stmt, hf]

/-- Witness for C6 at the condition `0` (while-loop kept, if removed). -/
theorem C6_witness :
    (fold_expr (.IntLiteral 0)).2 = some 0 ∧
    ((opt_stmt (.IfStmt (.IntLiteral 0) (.cons (.ReturnStmt (.IntLiteral 1)) .nil)) =
      if (0 : Int) ≠ 0 then
        .cons (.BlockStmt (opt_block (.cons (.ReturnStmt (.IntLiteral 1)) .nil))) .nil
      else .nil) ∧
     ∀ (c2 : Expr) (b : StmtList),
       opt_stmt (.WhileStmt c2 b) =
         .cons (.WhileStmt (fold_expr c2).1 (opt_block b)) .nil) :=
  ⟨by decide,
   C6_if_folding_and_while_never_removed (.IntLiteral 0)
     (.cons (.ReturnStmt (.IntLiteral 1)) .nil) 0 (by decide)⟩

/-! ## Optimizer idempotence -/

mutual

/-- Folding is idempotent: refolding a folded expression changes
nothing and recomputes the same constant value. -/
theorem fold_expr_idem (e : Expr) : fold_expr (fold_expr e).1 = fold_expr e := by
  cases e with
  | IntLiteral v => rfl
  | Identifier n => rfl
  | UnaryOp op e1 =>
    have ih := fold_expr_idem e1
    cases h : fold_expr e1 with
    | mk e2 v =>
      rw [h] at ih
      cases v with
      | none =>
        simp at ih
        simp [fold_expr, h, ih]
      | some x =>
        simp [fold_expr, h]
  | BinaryOp op l r =>
    have ihl := fold_expr_idem l
    have ihr := fold_expr_idem r
    cases hl : fold_expr l with
    | mk l1 lv =>
      cases hr : fold_expr r with
      | mk r1 rv =>
        rw [hl] at ihl
        rw [hr] at ihr
        simp at ihl ihr
        cases lv with
        | none => simp [fold_expr, hl, hr, ihl, ihr]
        | some a =>
          cases rv with
          | none => simp [fold_expr, hl, hr, ihl, ihr]
          | some b =>
            cases hv : evalBOp op a b with
            | some v => simp [fold_expr, hl, hr, hv]
            | none => simp [fold_expr, hl, hr, ihl, ihr, hv]
  | FuncCall n args =>
    have ih := foldArgs_idem args
    simp [fold_expr, ih]

/-- Argument-list folding is idempotent. -/
theorem foldArgs_idem (es : ExprList) : foldArgs (foldArgs es) = foldArgs es := by
  cases es with
  | nil => rfl
  | cons e t =>
    have ih1 := fold_expr_idem e
    have ih2 := foldArgs_idem t
    simp [foldArgs, ih2]
    rw [ih1]

end

/-- Appending the empty statement sequence on the right is the identity. -/
theorem StmtList_append_nil (xs : StmtList) : StmtList.append xs .nil = xs := by
  cases xs with
  | nil => rfl
  | cons a x => simp [StmtList.append, StmtList_append_nil x]

/-- Concatenation of statement sequences is associative. -/
theorem StmtList_append_assoc (a b c : StmtList) :
    StmtList.append (StmtList.append a b) c =
      StmtList.append a (StmtList.append b c) := by
  cases a with
  | nil => rfl
  | cons x xs => simp [StmtList.append, StmtList_append_assoc xs b c]

/-- `opt_block` distributes over appended statement sequences. -/
theorem opt_block_append (xs ys : StmtList) :
    opt_block (StmtList.append xs ys) =
      StmtList.append (opt_block xs) (opt_block ys) := by
  cases xs with
  | nil => simp [StmtList.append, opt_block]
  | cons a x =>
    show opt_block (.cons a (StmtList.append x ys)) = _
    rw [opt_block, opt_block, opt_block_append x ys, StmtList_append_assoc]

mutual

/-- Re-optimizing the replacements produced for one statement leaves
them unchanged. -/
theorem opt_stmt_idem (s : Stmt) : opt_block (opt_stmt s) = opt_stmt s := by
  cases s with
  | VarDecl n init =>
    cases init with
    | none => simp [opt_stmt, opt_block, StmtList.append]
    | some e =>
      have ih := fold_expr_idem e
      simp [opt_stmt, opt_block, StmtList.append]
      rw [ih]
  | Assignment n v =>
    have ih := fold_expr_idem v
    simp [opt_stmt, opt_block, StmtList.append]
    rw [ih]
  | ReturnStmt v =>
    have ih := fold_expr_idem v
    simp [opt_stmt, opt_block, StmtList.append]
    rw [ih]
  | IfStmt c tb =>
    have ihc := fold_expr_idem c
    have ihb := opt_block_idem tb
    cases h : fold_expr c with
    | mk c1 v =>
      rw [h] at ihc
      simp at ihc
      cases v with
      | none =>
        simp [opt_stmt, h, opt_block, StmtList.append, ihc, ihb]
      | some x =>
        by_cases hx : x = 0
        · subst hx
          simp [opt_stmt, h, opt_block]
        · simp [opt_stmt, h, hx, opt_block, StmtList.append, ihb]
  | WhileStmt c b =>
    have ihc := fold_expr_idem c
    have ihb := opt_block_idem b
    simp [opt_stmt, opt_block, StmtList.append, ihb]
    rw [ihc]
  | BlockStmt b =>
    have ihb := opt_block_idem b
    simp [opt_stmt, opt_block, StmtList.append, ihb]
  | ExprStmt e =>
    have ih := fold_expr_idem e
    simp [opt_stmt, opt_block, StmtList.append]
    rw [ih]

/-- `opt_block` is idempotent. -/
theorem opt_block_idem (ss : StmtList) : opt_block (opt_block ss) = opt_block ss := by
  cases ss with
  | nil => simp [opt_block]
  | cons s t =>
    have ih1 := opt_stmt_idem s
    have ih2 := opt_block_idem t
    rw [opt_block, opt_block_append, ih1, ih2]

end

/-- C7: running `Optimizer::optimize` twice yields the same program as
running it once -- the optimizer is idempotent. -/
theorem C7_optimize_idempotent :
    ∀ p : Program, optimize (optimize p) = optimize p := by
  intro p
  cases p with
  | mk fns =>
    simp [optimize, List.map_map]
    intro f _
    cases f with
    | mk n ps b => simp [opt_function, opt_block_idem]

/-! ## Binary-operator emission (C2) -/

/-- `emit` appends exactly one line. -/
theorem emit_lines (a : String) (s : CGState) :
    (emit a s).lines = s.lines ++ [a] := rfl

/-- `free_reg` never emits. -/
theorem free_reg_lines (r : String) (s : CGState) :
    (free_reg r s).lines = s.lines := by
  unfold free_reg
  split_ifs <;> rfl

/-- `alloc_reg` never emits. -/
theorem alloc_reg_lines (s : CGState) :
    ((alloc_reg s).2).lines = s.lines := by
  unfold alloc_reg
  split_ifs <;> rfl

/-- C2 (counterexample): generating code for `1 + 2` from a fresh
function state emits `mov ebx, 1 ; mov r12d, 2 ; add ebx, r12d` and
returns the pool register `rbx`; no operand is staged through `ecx` or
`eax` (`mov ecx, r12d` and `add eax, ecx` are not emitted) and the
result lives in `ebx`, not `eax`. -/
theorem C2_counterexample :
    gen_expr (.BinaryOp .ADD (.IntLiteral 1) (.IntLiteral 2)) initCG =
      .ok ("rbx", ⟨2, 0, true, false, false, [], "",
        ["    mov ebx, 1", "    mov r12d, 2", "    add ebx, r12d"]⟩) ∧
    "    mov ecx, r12d" ∉
      ["    mov ebx, 1", "    mov r12d, 2", "    add ebx, r12d"] ∧
    "    add eax, ecx" ∉
      ["    mov ebx, 1", "    mov r12d, 2", "    add ebx, r12d"] ∧
    "rbx" ≠ "" := by
  refine ⟨by decide, by decide, by decide, by decide⟩

/-- C2 (amended): after both operands of an `Add` node are evaluated,
codegen pops the right operand into `rcx` only when it was spilled and
the left into `rax` only when it was spilled (register-resident
operands are never staged through `ecx`/`eax`); the operator line is
emitted over the operands' value names (`add <l_val>, <r_val>` with
`eax`/`ecx` standing in only for spilled operands); and the result
lives in the left operand's pool register when register-resident, else
in the right operand's (after `mov <r_val>, eax`), else in `eax`, which
is then re-homed by an allocation or `push rax`. -/
theorem C2_add_emission :
    ∀ (l r : Expr) (s : CGState) (res : String) (s2 : CGState),
      gen_expr (.BinaryOp .ADD l r) s = .ok (res, s2) →
      ∃ (lreg : String) (s0 : CGState) (rreg : String) (s1 : CGState)
        (homing : List String),
        gen_expr l s = .ok (lreg, s0) ∧
        gen_expr r s0 = .ok (rreg, s1) ∧
        s2.lines = s1.lines
          ++ (if rreg = "" then ["    pop rcx"] else [])
          ++ (if lreg = "" then ["    pop rax"] else [])
          ++ ["    add " ++ (if lreg = "" then "eax" else reg32 lreg) ++ ", " ++
              (if rreg = "" then "ecx" else reg32 rreg)]
          ++ homing ∧
        (lreg ≠ "" → homing = [] ∧ res = lreg) ∧
        (lreg = "" → rreg ≠ "" →
          homing = ["    mov " ++ reg32 rreg ++ ", eax"] ∧ res = rreg) ∧
        (lreg = "" → rreg = "" →
          (res = "" ∧ homing = ["    push rax"]) ∨
          (res ≠ "" ∧ homing = ["    mov " ++ reg32 res ++ ", eax"])) := by
  intro l r s res s2 h
  rw [gen_expr] at h
  cases hgl : gen_expr l s with
  | error e =>
    rw [hgl] at h
    simp only [bind, Except.bind] at h
    exact Except.noConfusion h
  | ok p =>
    obtain ⟨lreg, s0⟩ := p
    rw [hgl] at h
    simp only [bind, Except.bind] at h
    cases hgr : gen_expr r s0 with
    | error e =>
      rw [hgr] at h
      simp only [bind, Except.bind] at h
      exact Except.noConfusion h
    | ok q =>
      obtain ⟨rreg, s1⟩ := q
      rw [hgr] at h
      simp only [bind, Except.bind] at h
      refine ⟨lreg, s0, rreg, s1, ?_⟩
      by_cases hl0 : lreg = ""
      · subst hl0
        by_cases hr0 : rreg = ""
        · subst hr0
          simp only [op_emit] at h
          simp at h
          cases halloc : alloc_reg (emit "    add eax, ecx"
              (emit "    pop rax" (emit "    pop rcx" s1))) with
          | mk dest s6 =>
            have h6 : s6.lines =
                s1.lines ++ ["    pop rcx", "    pop rax", "    add eax, ecx"] := by
              have hal := alloc_reg_lines (emit "    add eax, ecx"
                (emit "    pop rax" (emit "    pop rcx" s1)))
              rw [halloc] at hal
              simpa [emit_lines] using hal
            rw [halloc] at h
            by_cases hd : dest = ""
            · subst hd
              simp at h
              obtain ⟨hres, hs2⟩ := h
              subst hres
              subst hs2
              refine ⟨["    push rax"], rfl, hgr, ?_, by simp, by simp,
                fun _ _ => Or.inl ⟨rfl, rfl⟩⟩
              simp [emit_lines, h6]
            · simp [hd] at h
              obtain ⟨hres, hs2⟩ := h
              subst hres
              subst hs2
              refine ⟨["    mov " ++ reg32 dest ++ ", eax"], rfl, hgr, ?_,
                by simp, by simp, fun _ _ => Or.inr ⟨hd, rfl⟩⟩
              simp [emit_lines, h6]
        · simp only [op_emit] at h
          simp [hr0] at h
          obtain ⟨hres, hs2⟩ := h
          subst hres
          subst hs2
          refine ⟨["    mov " ++ reg32 rreg ++ ", eax"], rfl, hgr, ?_,
            by simp, fun _ _ => ⟨rfl, rfl⟩, fun _ hc => absurd hc hr0⟩
          simp [hr0, emit_lines]
      · simp only [op_emit] at h
        simp [hl0] at h
        obtain ⟨hres, hs2⟩ := h
        subst hres
        subst hs2
        refine ⟨[], rfl, hgr, ?_, fun _ => ⟨rfl, rfl⟩,
          fun hc => absurd hc hl0, fun hc => absurd hc hl0⟩
        by_cases hr0 : rreg = "" <;>
          simp [hl0, hr0, emit_lines, free_reg_lines]

/-- Witness for the amended C2 statement at `1 + 2` from a fresh
function state. -/
theorem C2_add_emission_witness :
    gen_expr (.BinaryOp .ADD (.IntLiteral 1) (.IntLiteral 2)) initCG =
      .ok ("rbx", ⟨2, 0, true, false, false, [], "",
        ["    mov ebx, 1", "    mov r12d, 2", "    add ebx, r12d"]⟩) ∧
    (∃ (lreg : String) (s0 : CGState) (rreg : String) (s1 : CGState)
        (homing : List String),
        gen_expr (.IntLiteral 1) initCG = .ok (lreg, s0) ∧
        gen_expr (.IntLiteral 2) s0 = .ok (rreg, s1) ∧
        (⟨2, 0, true, false, false, [], "",
          ["    mov ebx, 1", "    mov r12d, 2", "    add ebx, r12d"]⟩ :
            CGState).lines = s1.lines
          ++ (if rreg = "" then ["    pop rcx"] else [])
          ++ (if lreg = "" then ["    pop rax"] else [])
          ++ ["    add " ++ (if lreg = "" then "eax" else reg32 lreg) ++ ", " ++
              (if rreg = "" then "ecx" else reg32 rreg)]
          ++ homing ∧
        (lreg ≠ "" → homing = [] ∧ "rbx" = lreg) ∧
        (lreg = "" → rreg ≠ "" →
          homing = ["    mov " ++ reg32 rreg ++ ", eax"] ∧ "rbx" = rreg) ∧
        (lreg = "" → rreg = "" →
          ("rbx" = "" ∧ homing = ["    push rax"]) ∨
          ("rbx" ≠ "" ∧ homing = ["    mov " ++ reg32 "rbx" ++ ", eax"]))) :=
  ⟨by decide,
   C2_add_emission (.IntLiteral 1) (.IntLiteral 2) initCG "rbx"
     ⟨2, 0, true, false, false, [], "",
       ["    mov ebx, 1", "    mov r12d, 2", "    add ebx, r12d"]⟩
     (by decide)⟩

/-! ## Name binding discipline (C3) -/

/-- `emit` never touches the variable-offset map. -/
theorem emit_offsets (a : String) (s : CGState) :
    (emit a s).var_offsets = s.var_offsets := rfl

/-- `free_reg` never touches the variable-offset map. -/
theorem free_reg_offsets (r : String) (s : CGState) :
    (free_reg r s).var_offsets = s.var_offsets := by
  unfold free_reg
  split_ifs <;> rfl

/-- `alloc_reg` never touches the variable-offset map. -/
theorem alloc_reg_offsets (s : CGState) :
    ((alloc_reg s).2).var_offsets = s.var_offsets := by
  unfold alloc_reg
  split_ifs <;> rfl

/-- The reverse pop loop never touches the variable-offset map. -/
theorem pop_args_offsets (n : Nat) (s : CGState) :
    (pop_args n s).var_offsets = s.var_offsets := by
  induction n generalizing s with
  | zero => rfl
  | succ m ih => simp [pop_args, ih, emit_offsets]

/-- Membership of a name in an environment, mirroring the recursion of
`offsets_at` (first match wins). -/
def name_in (env : List String) (n : String) : Bool :=
  match env with
  | [] => false
  | m :: rest => if m = n then true else name_in rest n

/-- A lookup in the offset map succeeds exactly when the name is bound
in the key environment. -/
theorem offsets_at_name_in (m : List (String × Int)) (n : String) :
    (offsets_at m n).isSome = name_in (m.map Prod.fst) n := by
  induction m with
  | nil => rfl
  | cons a rest ih =>
    obtain ⟨k, off⟩ := a
    by_cases h : k = n <;> simp [offsets_at, name_in, h, ih]

mutual

/-- The binding discipline an expression must satisfy for codegen to
reach past it: every `Identifier` is bound in the environment (the key
set of `var_offsets_`); evaluation never changes the environment. -/
def scope_expr (env : List String) : Expr → Bool
  | .IntLiteral _ => true
  | .Identifier n => name_in env n
  | .UnaryOp _ e => scope_expr env e
  | .BinaryOp _ l r => scope_expr env l && scope_expr env r
  | .FuncCall _ args => scope_args env args

/-- `scope_expr` over an argument sequence. -/
def scope_args (env : List String) : ExprList → Bool
  | .nil => true
  | .cons e t => scope_expr env e && scope_args env t

end

mutual

/-- The binding discipline of one statement, mirroring how `gen_stmt`
threads `var_offsets_`: a `VarDecl` binds its own name before its
initializer is evaluated (flat function scope, traversal order), an
`Assignment` requires an existing binding, and `if`/`while`/`{}` bodies
leak their declarations into the following statements (the C++ map is
never popped).  The result is the environment after the statement and
whether every referenced name was bound. -/
def scope_stmt (env : List String) : Stmt → List String × Bool
  | .VarDecl n init =>
    match init with
    | none => (n :: env, true)
    | some e => (n :: env, scope_expr (n :: env) e)
  | .Assignment n v => (env, scope_expr env v && name_in env n)
  | .ReturnStmt v => (env, scope_expr env v)
  | .IfStmt c tb =>
    let e1 := scope_block env tb
    (e1.1, scope_expr env c && e1.2)
  | .WhileStmt c b =>
    let e1 := scope_block env b
    (e1.1, scope_expr env c && e1.2)
  | .BlockStmt b => scope_block env b
  | .ExprStmt e => (env, scope_expr env e)

/-- `scope_stmt` threaded over a statement sequence. -/
def scope_block (env : List String) : StmtList → List String × Bool
  | .nil => (env, true)
  | .cons s t =>
    let e1 := scope_stmt env s
    let e2 := scope_block e1.1 t
    (e2.1, e1.2 && e2.2)

end

/-- The binding discipline of a whole function: the body checked in the
environment holding exactly the parameters (inserted in homing order,
most recent first, matching `gen_params`). -/
def scope_function (f : Function) : Bool :=
  (scope_block (f.params.foldl (fun acc p => p :: acc) []) f.body).2

/-- The binding discipline of a whole program. -/
def scope_program (p : Program) : Bool :=
  p.functions.all scope_function

/-- The operator switch only emits lines; it never touches the
variable-offset map. -/
theorem op_emit_offsets (op : BOp) (a b c d : String) (t : CGState) :
    (op_emit op a b c d t).var_offsets = t.var_offsets := by
  cases op <;> simp [op_emit, emit_offsets] <;>
    split_ifs <;> simp [emit_offsets]

mutual

/-- If `gen_expr` succeeds, every name the expression references was
bound in the offset map, and the offset map is unchanged. -/
theorem gen_expr_scope (e : Expr) (s : CGState) (res : String) (s1 : CGState)
    (h : gen_expr e s = .ok (res, s1)) :
    scope_expr (s.var_offsets.map Prod.fst) e = true ∧
    s1.var_offsets = s.var_offsets := by
  cases e with
  | IntLiteral v =>
    simp only [gen_expr] at h
    cases halloc : alloc_reg s with
    | mk dest sa =>
      have ha := alloc_reg_offsets s
      rw [halloc] at ha
      simp at ha
      rw [halloc] at h
      by_cases hd : dest = ""
      · simp [hd] at h
        obtain ⟨_, hs1⟩ := h
        subst hs1
        exact ⟨rfl, by simp [emit_offsets, ha]⟩
      · simp [hd] at h
        obtain ⟨_, hs1⟩ := h
        subst hs1
        exact ⟨rfl, by simp [emit_offsets, ha]⟩
  | Identifier n =>
    simp only [gen_expr] at h
    cases hoff : offsets_at s.var_offsets n with
    | none =>
      rw [hoff] at h
      exact Except.noConfusion h
    | some off =>
      rw [hoff] at h
      have hni : name_in (s.var_offsets.map Prod.fst) n = true := by
        have := offsets_at_name_in s.var_offsets n
        rw [hoff] at this
        exact this.symm
      cases halloc : alloc_reg s with
      | mk dest sa =>
        have ha := alloc_reg_offsets s
        rw [halloc] at ha
        simp at ha
        rw [halloc] at h
        by_cases hd : dest = ""
        · simp [hd] at h
          obtain ⟨_, hs1⟩ := h
          subst hs1
          exact ⟨by simp [scope_expr, hni], by simp [emit_offsets, ha]⟩
        · simp [hd] at h
          obtain ⟨_, hs1⟩ := h
          subst hs1
          exact ⟨by simp [scope_expr, hni], by simp [emit_offsets, ha]⟩
  | UnaryOp op e1 =>
    simp only [gen_expr] at h
    cases hg : gen_expr e1 s with
    | error exc =>
      rw [hg] at h
      simp only [bind, Except.bind] at h
      exact Except.noConfusion h
    | ok p =>
      obtain ⟨r0, sa⟩ := p
      have ih := gen_expr_scope e1 s r0 sa hg
      rw [hg] at h
      simp only [bind, Except.bind] at h
      refine ⟨by simp [scope_expr, ih.1], ?_⟩
      by_cases hr : r0 = ""
      · subst hr
        simp at h
        cases op <;> simp at h <;> rw [← h.2] <;>
          simp [emit_offsets, ih.2]
      · simp [hr] at h
        cases op <;> simp at h <;> rw [← h.2] <;>
          simp [emit_offsets, ih.2]
  | BinaryOp op l r =>
    simp only [gen_expr] at h
    cases hgl : gen_expr l s with
    | error exc =>
      rw [hgl] at h
      simp only [bind, Except.bind] at h
      exact Except.noConfusion h
    | ok p =>
      obtain ⟨lreg, sa⟩ := p
      have ihl := gen_expr_scope l s lreg sa hgl
      rw [hgl] at h
      simp only [bind, Except.bind] at h
      cases hgr : gen_expr r sa with
      | error exc =>
        rw [hgr] at h
        simp only [bind, Except.bind] at h
        exact Except.noConfusion h
      | ok q =>
        obtain ⟨rreg, sb⟩ := q
        have ihr := gen_expr_scope r sa rreg sb hgr
        rw [hgr] at h
        simp only [bind, Except.bind] at h
        have ihr1 : scope_expr (List.map Prod.fst s.var_offsets) r = true := by
          have h2 := ihr.1
          rw [ihl.2] at h2
          exact h2
        refine ⟨by simp [scope_expr, ihl.1, ihr1], ?_⟩
        have hsb : sb.var_offsets = s.var_offsets := by rw [ihr.2, ihl.2]
        by_cases hl0 : lreg = ""
        · subst hl0
          by_cases hr0 : rreg = ""
          · subst hr0
            simp at h
            cases halloc : alloc_reg (op_emit op "eax" "ecx" "al" "cl"
                (emit "    pop rax" (emit "    pop rcx" sb))) with
            | mk dest sc =>
              have ha := alloc_reg_offsets (op_emit op "eax" "ecx" "al" "cl"
                (emit "    pop rax" (emit "    pop rcx" sb)))
              rw [halloc] at ha
              simp at ha
              have hop := op_emit_offsets op "eax" "ecx" "al" "cl"
                (emit "    pop rax" (emit "    pop rcx" sb))
              rw [halloc] at h
              by_cases hd : dest = ""
              · simp [hd] at h
                rw [← h.2]
                simp [emit_offsets, ha, hop, hsb]
              · simp [hd] at h
                rw [← h.2]
                simp [emit_offsets, ha, hop, hsb]
          · simp [hr0] at h
            rw [← h.2]
            simp [emit_offsets, op_emit_offsets, hsb]
        · simp [hl0] at h
          rw [← h.2]
          by_cases hr0 : rreg = "" <;>
            simp [hr0, free_reg_offsets, emit_offsets, op_emit_offsets, hsb]
  | FuncCall n args =>
    simp only [gen_expr] at h
    by_cases hlen : args.length > 6
    · simp [hlen] at h
    · rw [if_neg hlen] at h
      cases hga : gen_args args s with
      | error exc =>
        rw [hga] at h
        simp only [bind, Except.bind] at h
        exact Except.noConfusion h
      | ok sa =>
        have ih := gen_args_scope args s sa hga
        rw [hga] at h
        simp only [bind, Except.bind] at h
        refine ⟨by simp [scope_expr, ih.1], ?_⟩
        cases halloc : alloc_reg (emit ("    call " ++ n)
            (pop_args args.length sa)) with
        | mk dest sc =>
          have ha := alloc_reg_offsets (emit ("    call " ++ n)
            (pop_args args.length sa))
          rw [halloc] at ha
          simp at ha
          rw [halloc] at h
          by_cases hd : dest = ""
          · simp [hd] at h
            rw [← h.2]
            simp [emit_offsets, ha, pop_args_offsets, ih.2]
          · simp [hd] at h
            rw [← h.2]
            simp [emit_offsets, ha, pop_args_offsets, ih.2]

/-- If the argument loop succeeds, every argument's names were bound,
and the offset map is unchanged. -/
theorem gen_args_scope (es : ExprList) (s : CGState) (s1 : CGState)
    (h : gen_args es s = .ok s1) :
    scope_args (s.var_offsets.map Prod.fst) es = true ∧
    s1.var_offsets = s.var_offsets := by
  cases es with
  | nil =>
    simp only [gen_args] at h
    simp at h
    subst h
    exact ⟨rfl, rfl⟩
  | cons a t =>
    simp only [gen_args] at h
    cases hg : gen_expr a s with
    | error exc =>
      rw [hg] at h
      simp only [bind, Except.bind] at h
      exact Except.noConfusion h
    | ok p =>
      obtain ⟨areg, sa⟩ := p
      have ihe := gen_expr_scope a s areg sa hg
      rw [hg] at h
      simp only [bind, Except.bind] at h
      by_cases ha : areg = ""
      · subst ha
        simp at h
        have iht := gen_args_scope t sa s1 h
        refine ⟨?_, by rw [iht.2, ihe.2]⟩
        simp [scope_args, ihe.1]
        rw [← ihe.2]
        exact iht.1
      · simp [ha] at h
        have iht := gen_args_scope t (free_reg areg (emit ("    push " ++ areg) sa)) s1 h
        have hoff : (free_reg areg (emit ("    push " ++ areg) sa)).var_offsets =
            s.var_offsets := by
          simp [free_reg_offsets, emit_offsets, ihe.2]
        refine ⟨?_, by rw [iht.2, hoff]⟩
        simp [scope_args, ihe.1]
        rw [← hoff]
        exact iht.1

end

mutual

/-- If `gen_stmt` succeeds, every name the statement references obeys
the binding discipline, and the offset-map keys afterwards are exactly
the environment the checker computes. -/
theorem gen_stmt_scope (st : Stmt) (s : CGState) (s1 : CGState)
    (h : gen_stmt st s = .ok s1) :
    (scope_stmt (s.var_offsets.map Prod.fst) st).2 = true ∧
    s1.var_offsets.map Prod.fst =
      (scope_stmt (s.var_offsets.map Prod.fst) st).1 := by
  cases st with
  | ReturnStmt v =>
    simp only [gen_stmt] at h
    cases hg : gen_expr v s with
    | error exc =>
      rw [hg] at h
      simp only [bind, Except.bind] at h
      exact Except.noConfusion h
    | ok p =>
      obtain ⟨reg, sa⟩ := p
      have ih := gen_expr_scope v s reg sa hg
      rw [hg] at h
      simp only [bind, Except.bind] at h
      simp at h
      refine ⟨by simp [scope_stmt, ih.1], ?_⟩
      rw [← h]
      by_cases hr : reg = "" <;>
        simp [hr, scope_stmt, emit_offsets, free_reg_offsets, ih.2]
  | VarDecl n init =>
    simp only [gen_stmt] at h
    cases init with
    | none =>
      simp at h
      rw [← h]
      simp [scope_stmt, emit_offsets]
    | some e =>
      dsimp only at h
      cases hg : gen_expr e (emit "    sub rsp, 8"
          { s with next_var_offset := s.next_var_offset - 8,
                   var_offsets := (n, s.next_var_offset - 8) :: s.var_offsets }) with
      | error exc =>
        rw [hg] at h
        simp only [bind, Except.bind] at h
        exact Except.noConfusion h
      | ok p =>
        obtain ⟨reg, sa⟩ := p
        have ih := gen_expr_scope e _ reg sa hg
        rw [hg] at h
        simp only [bind, Except.bind] at h
        refine ⟨by simp [scope_stmt]; simpa [emit_offsets] using ih.1, ?_⟩
        simp [emit_offsets] at ih
        by_cases hr : reg = "" <;>
          simp [hr] at h <;>
          rw [← h] <;>
          simp [scope_stmt, emit_offsets, free_reg_offsets, ih.2]
  | Assignment n v =>
    simp only [gen_stmt] at h
    cases hg : gen_expr v s with
    | error exc =>
      rw [hg] at h
      simp only [bind, Except.bind] at h
      exact Except.noConfusion h
    | ok p =>
      obtain ⟨reg, sa⟩ := p
      have ih := gen_expr_scope v s reg sa hg
      rw [hg] at h
      simp only [bind, Except.bind] at h
      cases hoff : offsets_at sa.var_offsets n with
      | none =>
        rw [hoff] at h
        exact Except.noConfusion h
      | some off =>
        rw [hoff] at h
        have hni : name_in (s.var_offsets.map Prod.fst) n = true := by
          have hin := offsets_at_name_in sa.var_offsets n
          rw [hoff, ih.2] at hin
          exact hin.symm
        refine ⟨by simp [scope_stmt, ih.1, hni], ?_⟩
        by_cases hr : reg = "" <;>
          simp [hr] at h <;>
          rw [← h] <;>
          simp [scope_stmt, emit_offsets, free_reg_offsets, ih.2]
  | IfStmt c tb =>
    simp only [gen_stmt] at h
    cases hg : gen_expr c { s with label_counter := s.label_counter + 2 } with
    | error exc =>
      rw [hg] at h
      simp only [bind, Except.bind] at h
      exact Except.noConfusion h
    | ok p =>
      obtain ⟨reg, sa⟩ := p
      have ih := gen_expr_scope c _ reg sa hg
      rw [hg] at h
      simp only [bind, Except.bind] at h
      have ihc : scope_expr (s.var_offsets.map Prod.fst) c = true := ih.1
      cases hgb : gen_block tb (emit ("    je " ++ (".L" ++ natToDec s.label_counter))
          (if reg ≠ "" then
            free_reg reg (emit ("    test " ++ reg32 reg ++ ", " ++ reg32 reg) sa)
          else emit "    test eax, eax" (emit "    pop rax" sa))) with
      | error exc =>
        rw [hgb] at h
        simp only [bind, Except.bind] at h
        exact Except.noConfusion h
      | ok sb =>
        have ihb := gen_block_scope tb _ sb hgb
        rw [hgb] at h
        simp only [bind, Except.bind] at h
        simp at h
        have henv : ((emit ("    je " ++ (".L" ++ natToDec s.label_counter))
            (if reg ≠ "" then
              free_reg reg (emit ("    test " ++ reg32 reg ++ ", " ++ reg32 reg) sa)
            else emit "    test eax, eax" (emit "    pop rax" sa))).var_offsets).map
              Prod.fst = s.var_offsets.map Prod.fst := by
          by_cases hr : reg = "" <;>
            simp [hr, emit_offsets, free_reg_offsets, ih.2]
        rw [henv] at ihb
        refine ⟨by simp [scope_stmt, ihc, ihb.1], ?_⟩
        rw [← h]
        simp [scope_stmt, emit_offsets, ihb.2]
  | WhileStmt c b =>
    simp only [gen_stmt] at h
    cases hg : gen_expr c (emit ((".L" ++ natToDec s.label_counter) ++ ":")
        { s with label_counter := s.label_counter + 2 }) with
    | error exc =>
      rw [hg] at h
      simp only [bind, Except.bind] at h
      exact Except.noConfusion h
    | ok p =>
      obtain ⟨reg, sa⟩ := p
      have ih := gen_expr_scope c _ reg sa hg
      rw [hg] at h
      simp only [bind, Except.bind] at h
      have ihc : scope_expr (s.var_offsets.map Prod.fst) c = true := by
        simpa [emit_offsets] using ih.1
      cases hgb : gen_block b (emit ("    je " ++
          (".L" ++ natToDec (s.label_counter + 1)))
          (if reg ≠ "" then
            free_reg reg (emit ("    test " ++ reg32 reg ++ ", " ++ reg32 reg) sa)
          else emit "    test eax, eax" (emit "    pop rax" sa))) with
      | error exc =>
        rw [hgb] at h
        simp only [bind, Except.bind] at h
        exact Except.noConfusion h
      | ok sb =>
        have ihb := gen_block_scope b _ sb hgb
        rw [hgb] at h
        simp only [bind, Except.bind] at h
        simp at h
        have henv : ((emit ("    je " ++ (".L" ++ natToDec (s.label_counter + 1)))
            (if reg ≠ "" then
              free_reg reg (emit ("    test " ++ reg32 reg ++ ", " ++ reg32 reg) sa)
            else emit "    test eax, eax" (emit "    pop rax" sa))).var_offsets).map
              Prod.fst = s.var_offsets.map Prod.fst := by
          by_cases hr : reg = "" <;>
            simp [hr, emit_offsets, free_reg_offsets] <;>
            simp [emit_offsets] at ih <;>
            simp [ih.2]
        rw [henv] at ihb
        refine ⟨by simp [scope_stmt, ihc, ihb.1], ?_⟩
        rw [← h]
        simp [scope_stmt, emit_offsets, ihb.2]
  | BlockStmt b =>
    simp only [gen_stmt] at h
    have ihb := gen_block_scope b s s1 h
    exact ⟨by simp [scope_stmt, ihb.1], by simp [scope_stmt, ihb.2]⟩
  | ExprStmt e =>
    simp only [gen_stmt] at h
    cases hg : gen_expr e s with
    | error exc =>
      rw [hg] at h
      simp only [bind, Except.bind] at h
      exact Except.noConfusion h
    | ok p =>
      obtain ⟨reg, sa⟩ := p
      have ih := gen_expr_scope e s reg sa hg
      rw [hg] at h
      simp only [bind, Except.bind] at h
      refine ⟨by simp [scope_stmt, ih.1], ?_⟩
      by_cases hr : reg = ""
      · subst hr
        simp at h
        rw [← h]
        simp [scope_stmt, emit_offsets, ih.2]
      · simp [hr] at h
        rw [← h]
        simp [scope_stmt, free_reg_offsets, ih.2]

/-- If `gen_block` succeeds, the whole statement sequence obeys the
binding discipline, threading the environment statement by statement. -/
theorem gen_block_scope (b : StmtList) (s : CGState) (s1 : CGState)
    (h : gen_block b s = .ok s1) :
    (scope_block (s.var_offsets.map Prod.fst) b).2 = true ∧
    s1.var_offsets.map Prod.fst =
      (scope_block (s.var_offsets.map Prod.fst) b).1 := by
  cases b with
  | nil =>
    simp only [gen_block] at h
    simp at h
    subst h
    exact ⟨rfl, rfl⟩
  | cons st t =>
    simp only [gen_block] at h
    cases hg : gen_stmt st s with
    | error exc =>
      rw [hg] at h
      simp only [bind, Except.bind] at h
      exact Except.noConfusion h
    | ok sa =>
      have ih1 := gen_stmt_scope st s sa hg
      rw [hg] at h
      simp only [bind, Except.bind] at h
      have ih2 := gen_block_scope t sa s1 h
      rw [ih1.2] at ih2
      exact ⟨by simp [scope_block, ih1.1, ih2.1], by simp [scope_block, ih2.2]⟩

end

/-- Homing the parameters prepends them, in order, to the offset-map
keys. -/
theorem gen_params_env (ps : List String) (i : Nat) (s : CGState) :
    ((gen_params ps i s).var_offsets).map Prod.fst =
      ps.foldl (fun acc p => p :: acc) (s.var_offsets.map Prod.fst) := by
  induction ps generalizing i s with
  | nil => rfl
  | cons p rest ih =>
    simp only [gen_params, List.foldl_cons]
    rw [ih]
    simp [emit_offsets]

/-- If `gen_function` succeeds, the function body obeys the binding
discipline starting from its parameters. -/
theorem gen_function_scope (f : Function) (s : CGState) (s1 : CGState)
    (h : gen_function f s = .ok s1) : scope_function f = true := by
  unfold gen_function at h
  by_cases hp : f.params.length > 6
  · simp [hp] at h
  · rw [if_neg hp] at h
    dsimp only at h
    cases hgb : gen_block f.body (gen_params f.params 0
        (emit "    push r13" (emit "    push r12" (emit "    push rbx"
          (emit "    mov rbp, rsp" (emit "    push rbp" (emit (f.name ++ ":")
            { s with var_offsets := [], next_var_offset := -24,
                     reg_used0 := false, reg_used1 := false, reg_used2 := false,
                     epilogue_label := ".Lfunc_" ++ natToDec s.label_counter,
                     label_counter := s.label_counter + 1 }))))))) with
    | error exc =>
      rw [hgb] at h
      simp only [bind, Except.bind] at h
      exact Except.noConfusion h
    | ok sb =>
      have ihb := gen_block_scope f.body _ sb hgb
      have henv := gen_params_env f.params 0
        (emit "    push r13" (emit "    push r12" (emit "    push rbx"
          (emit "    mov rbp, rsp" (emit "    push rbp" (emit (f.name ++ ":")
            { s with var_offsets := [], next_var_offset := -24,
                     reg_used0 := false, reg_used1 := false, reg_used2 := false,
                     epilogue_label := ".Lfunc_" ++ natToDec s.label_counter,
                     label_counter := s.label_counter + 1 }))))))
      simp only [emit_offsets] at henv
      simp only [henv] at ihb
      unfold scope_function
      simpa using ihb.1

/-- If the whole-program loop succeeds, every function obeys the
binding discipline. -/
theorem gen_functions_scope (fs : List Function) (s : CGState) (s1 : CGState)
    (h : gen_functions fs s = .ok s1) :
    fs.all scope_function = true := by
  induction fs generalizing s with
  | nil => rfl
  | cons f rest ih =>
    simp only [gen_functions] at h
    cases hg : gen_function f s with
    | error exc =>
      rw [hg] at h
      simp only [bind, Except.bind] at h
      exact Except.noConfusion h
    | ok sa =>
      rw [hg] at h
      simp only [bind, Except.bind] at h
      simp [List.all_cons, gen_function_scope f s sa hg, ih sa h]

/-- C3 (counterexample): for `int main () { return x; }` (an
`Identifier` referencing a name that is neither a parameter nor
declared by any `VarDecl`), codegen fails -- but by the
`std::out_of_range` thrown from `var_offsets_.at`, not by a
`GenError`. -/
theorem C3_counterexample :
    Codegen ⟨[⟨"main", [], .cons (.ReturnStmt (.Identifier "x")) .nil⟩]⟩ =
      .error .OutOfRange ∧
    ∀ msg, Codegen ⟨[⟨"main", [], .cons (.ReturnStmt (.Identifier "x")) .nil⟩]⟩ ≠
      .error (.GenError msg) := by
  refine ⟨by decide, ?_⟩
  intro msg hcontra
  rw [show Codegen ⟨[⟨"main", [], .cons (.ReturnStmt (.Identifier "x")) .nil⟩]⟩ =
    .error .OutOfRange from by decide] at hcontra
  simp at hcontra

/-- C3 (amended): codegen succeeds only if every `Assignment` or
`Identifier` name is a parameter or is bound by a VarDecl no later than
its own statement (a declaration's own name is visible in its
initializer), in flat per-function scope and body traversal order;
equivalently, a program violating that discipline makes code generation
fail -- with `std::out_of_range` at the lookup, which is not a
`GenError`. -/
theorem C3_codegen_success_implies_scope :
    ∀ (p : Program) (s : CGState), Codegen p = .ok s →
      scope_program p = true := by
  intro p s h
  unfold Codegen at h
  by_cases hm : p.functions.any (fun f => f.name = "main")
  · rw [if_neg (by simp [hm])] at h
    exact gen_functions_scope p.functions initCG s h
  · rw [if_pos (by simp [hm])] at h
    exact Except.noConfusion h

/-- Witness for the amended C3 statement: a program whose names all
obey the discipline (including a self-referencing initializer) passes
codegen, and the checker agrees. -/
theorem C3_scope_witness :
    Codegen ⟨[⟨"main", [],
      .cons (.VarDecl "x" (some (.Identifier "x")))
        (.cons (.Assignment "x" (.IntLiteral 2))
          (.cons (.ReturnStmt (.Identifier "x")) .nil))⟩]⟩ =
      .ok ⟨3, -32, false, false, false, [("x", -32)], ".Lfunc_2",
        ["main:", "    push rbp", "    mov rbp, rsp", "    push rbx",
         "    push r12", "    push r13", "    sub rsp, 8",
         "    mov ebx, DWORD PTR [rbp +-32]",
         "    mov DWORD PTR [rbp +-32], ebx", "    mov ebx, 2",
         "    mov DWORD PTR [rbp +-32], ebx",
         "    mov ebx, DWORD PTR [rbp +-32]", "    mov eax, ebx",
         "    jmp .Lfunc_2", ".Lfunc_2:", "    lea rsp, [rbp - 24]",
         "    pop r13", "    pop r12", "    pop rbx", "    pop rbp",
         "    ret"]⟩ ∧
    scope_program ⟨[⟨"main", [],
      .cons (.VarDecl "x" (some (.Identifier "x")))
        (.cons (.Assignment "x" (.IntLiteral 2))
          (.cons (.ReturnStmt (.Identifier "x")) .nil))⟩]⟩ = true :=
  ⟨by decide,
   C3_codegen_success_implies_scope
     ⟨[⟨"main", [],
       .cons (.VarDecl "x" (some (.Identifier "x")))
         (.cons (.Assignment "x" (.IntLiteral 2))
           (.cons (.ReturnStmt (.Identifier "x")) .nil))⟩]⟩
     ⟨3, -32, false, false, false, [("x", -32)], ".Lfunc_2",
       ["main:", "    push rbp", "    mov rbp, rsp", "    push rbx",
        "    push r12", "    push r13", "    sub rsp, 8",
        "    mov ebx, DWORD PTR [rbp +-32]",
        "    mov DWORD PTR [rbp +-32], ebx", "    mov ebx, 2",
        "    mov DWORD PTR [rbp +-32], ebx",
        "    mov ebx, DWORD PTR [rbp +-32]", "    mov eax, ebx",
        "    jmp .Lfunc_2", ".Lfunc_2:", "    lea rsp, [rbp - 24]",
        "    pop r13", "    pop r12", "    pop rbx", "    pop rbp",
        "    ret"]⟩
     (by decide)⟩

/-! ## Label uniqueness (C9) -/

/-- Reading a digit string back: appending one digit multiplies by ten. -/
theorem digitsVal_append_digit (a : List Char) (c : Char) :
    digitsVal (a ++ [c]) = 10 * digitsVal a + (c.toNat - 48) := by
  simp [digitsVal, List.foldl_append]
  omega

/-- Unfolding one printing step. -/
theorem natDecAux_step (fuel n : Nat) :
    natDecAux (fuel + 1) n =
      if n < 10 then [Char.ofNat (48 + n)]
      else natDecAux fuel (n / 10) ++ [Char.ofNat (48 + n % 10)] := rfl

/-- The decimal printer emits a nonempty digit string reading back to
its input whenever the fuel dominates the digit count. -/
theorem natDecAux_val (fuel : Nat) :
    ∀ n : Nat, n < 10 ^ (fuel + 1) →
      digitsVal (natDecAux (fuel + 1) n) = n ∧
      natDecAux (fuel + 1) n ≠ [] ∧
      (natDecAux (fuel + 1) n).all isdigit = true := by
  induction fuel with
  | zero =>
    intro n hn
    norm_num at hn
    rw [natDecAux_step, if_pos hn]
    refine ⟨?_, by exact List.cons_ne_nil _ _, ?_⟩
    · interval_cases n <;> decide
    · interval_cases n <;> decide
  | succ f ih =>
    intro n hn
    by_cases h10 : n < 10
    · rw [natDecAux_step, if_pos h10]
      refine ⟨?_, by exact List.cons_ne_nil _ _, ?_⟩
      · interval_cases n <;> decide
      · interval_cases n <;> decide
    · rw [natDecAux_step, if_neg h10]
      have hdiv : n / 10 < 10 ^ (f + 1) := by
        rw [Nat.div_lt_iff_lt_mul (by norm_num)]
        calc n < 10 ^ (f + 1 + 1) := hn
        _ = 10 ^ (f + 1) * 10 := by ring
      obtain ⟨ihv, ihne, ihdig⟩ := ih (n / 10) hdiv
      have hmod : n % 10 < 10 := Nat.mod_lt _ (by norm_num)
      have hchar : (Char.ofNat (48 + n % 10)).toNat = 48 + n % 10 := by
        set m := n % 10 with hm
        interval_cases m <;> decide
      have hcdig : isdigit (Char.ofNat (48 + n % 10)) = true := by
        set m := n % 10 with hm
        interval_cases m <;> decide
      refine ⟨?_, by simp [ihne], ?_⟩
      · rw [digitsVal_append_digit]
        rw [ihv]
        rw [hchar]
        omega
      · simp [List.all_append, ihdig, hcdig]

/-- The decimal printer reads back to its input. -/
theorem natToDec_val (n : Nat) : digitsVal (natToDec n).data = n := by
  have hlt : n < 10 ^ (n + 1) := by
    calc n < 10 ^ n := Nat.lt_pow_self (by norm_num) n
    _ ≤ 10 ^ (n + 1) := Nat.pow_le_pow_right (by norm_num) (Nat.le_succ n)
  exact (natDecAux_val n n hlt).1

/-- The decimal printer is injective. -/
theorem natToDec_inj (a b : Nat) (h : natToDec a = natToDec b) : a = b := by
  have := congrArg (fun s => digitsVal s.data) h
  simpa [natToDec_val] using this

/-- A digit run followed by a single closing colon. -/
def digitsThenColon : List Char → Bool
  | [] => false
  | [c] => c = ':'
  | c :: rest => isdigit c && digitsThenColon rest

/-- Recognizer on raw characters: a `.L` prefix, one or more decimal
digits, and the closing colon. -/
def isDotLData : List Char → Bool
  | '.' :: 'L' :: c :: rest => isdigit c && digitsThenColon rest
  | _ => false

/-- Recognizer for the branch-target label-definition lines `.L<n>:`
that `gen_stmt` emits for `IfStmt`/`WhileStmt`: a `.L` prefix, one or
more decimal digits, and the closing colon.  Instruction lines (four
leading spaces) and `.Lfunc_<n>:` epilogue labels do not match. -/
def isDotLLabelLine (line : String) : Bool :=
  isDotLData line.data

/-- A nonempty digit run followed by a colon satisfies the tail
recognizer. -/
theorem digitsThenColon_digits (cs : List Char) (h : cs.all isdigit = true) :
    digitsThenColon (cs ++ [':']) = true := by
  induction cs with
  | nil => rfl
  | cons c rest ih =>
    simp only [List.all_cons, Bool.and_eq_true] at h
    cases rest with
    | nil => simp [digitsThenColon, h.1]
    | cons c2 rest2 =>
      have := ih h.2
      simp only [List.cons_append] at this ⊢
      simp [digitsThenColon, h.1, this]

/-- Every branch-target label line the counter produces is recognized. -/
theorem isDotL_label (k : Nat) :
    isDotLLabelLine (".L" ++ natToDec k ++ ":") = true := by
  have hlt : k < 10 ^ (k + 1) := by
    calc k < 10 ^ k := Nat.lt_pow_self (by norm_num) k
    _ ≤ 10 ^ (k + 1) := Nat.pow_le_pow_right (by norm_num) (Nat.le_succ k)
  obtain ⟨hval, hne, hdig⟩ := natDecAux_val k k hlt
  cases haux : natDecAux (k + 1) k with
  | nil => exact absurd haux hne
  | cons c cs =>
    rw [haux] at hdig
    simp only [List.all_cons, Bool.and_eq_true] at hdig
    show isDotLData (".L" ++ natToDec k ++ ":").data = true
    have hdata : (".L" ++ natToDec k ++ ":").data =
        '.' :: 'L' :: c :: (cs ++ [':']) := by
      show ('.' :: 'L' :: natDecAux (k + 1) k) ++ [':'] = _
      rw [haux]
      rfl
    rw [hdata]
    show (isdigit c && digitsThenColon (cs ++ [':'])) = true
    simp [hdig.1, digitsThenColon_digits cs hdig.2]

/-- Distinct counter values give distinct label lines. -/
theorem dotL_label_inj (a b : Nat)
    (h : ".L" ++ natToDec a ++ ":" = ".L" ++ natToDec b ++ ":") : a = b := by
  have hd := congrArg String.data h
  have ha : (".L" ++ natToDec a ++ ":").data =
      '.' :: 'L' :: ((natToDec a).data ++ [':']) := rfl
  have hb : (".L" ++ natToDec b ++ ":").data =
      '.' :: 'L' :: ((natToDec b).data ++ [':']) := rfl
  rw [ha, hb] at hd
  simp only [List.cons.injEq, true_and] at hd
  have hdd : (natToDec a).data = (natToDec b).data :=
    List.append_left_injective _ hd
  have := congrArg digitsVal hdd
  rwa [natToDec_val, natToDec_val] at this

/-- The branch-target label lines inside an emitted line segment: they
are pairwise distinct and all drawn from the half-open counter interval
`[lo, hi)`. -/
def labelLinesIn (lo hi : Nat) (d : List String) : Prop :=
  (d.filter (fun l => isDotLLabelLine l)).Nodup ∧
  ∀ l ∈ d, isDotLLabelLine l = true →
    ∃ k, l = ".L" ++ natToDec k ++ ":" ∧ lo ≤ k ∧ k < hi

/-- A segment of instruction lines carries no labels. -/
theorem labelLinesIn_instr (lo hi : Nat) (d : List String)
    (h : ∀ l ∈ d, isDotLLabelLine l = false) : labelLinesIn lo hi d := by
  constructor
  · have : d.filter (fun l => isDotLLabelLine l) = [] := by
      rw [List.filter_eq_nil_iff]
      intro a ha
      simp [h a ha]
    rw [this]
    exact List.nodup_nil
  · intro l hl htrue
    rw [h l hl] at htrue
    exact absurd htrue (by simp)

/-- A single label line from the interval. -/
theorem labelLinesIn_single (lo hi k : Nat) (h1 : lo ≤ k) (h2 : k < hi) :
    labelLinesIn lo hi [".L" ++ natToDec k ++ ":"] := by
  constructor
  · exact List.Nodup.filter _ (List.nodup_singleton _)
  · intro l hl _
    simp at hl
    exact ⟨k, hl, h1, h2⟩

/-- Concatenating two label segments over disjoint intervals inside the
outer interval. -/
theorem labelLinesIn_append (lo hi lo1 hi1 lo2 hi2 : Nat)
    (d1 d2 : List String)
    (h1 : labelLinesIn lo1 hi1 d1) (h2 : labelLinesIn lo2 hi2 d2)
    (hdisj : hi1 ≤ lo2 ∨ hi2 ≤ lo1)
    (hlo1 : lo ≤ lo1) (hlo2 : lo ≤ lo2) (hhi1 : hi1 ≤ hi) (hhi2 : hi2 ≤ hi) :
    labelLinesIn lo hi (d1 ++ d2) := by
  obtain ⟨hn1, hk1⟩ := h1
  obtain ⟨hn2, hk2⟩ := h2
  constructor
  · rw [List.filter_append, List.nodup_append]
    refine ⟨hn1, hn2, ?_⟩
    intro l hl1 hl2
    rw [List.mem_filter] at hl1 hl2
    obtain ⟨k1, hl1e, hk1lo, hk1hi⟩ := hk1 l hl1.1 hl1.2
    obtain ⟨k2, hl2e, hk2lo, hk2hi⟩ := hk2 l hl2.1 hl2.2
    have : k1 = k2 := dotL_label_inj k1 k2 (by rw [← hl1e, ← hl2e])
    omega
  · intro l hl htrue
    rw [List.mem_append] at hl
    cases hl with
    | inl hmem =>
      obtain ⟨k, he, hklo, hkhi⟩ := hk1 l hmem htrue
      exact ⟨k, he, by omega, by omega⟩
    | inr hmem =>
      obtain ⟨k, he, hklo, hkhi⟩ := hk2 l hmem htrue
      exact ⟨k, he, by omega, by omega⟩

/-- Extension of a state by instruction lines only: the label counter
is untouched and every appended line fails the label recognizer. -/
def instrExt (s s1 : CGState) : Prop :=
  s1.label_counter = s.label_counter ∧
  ∃ d, s1.lines = s.lines ++ d ∧ ∀ l ∈ d, isDotLLabelLine l = false

theorem instrExt_refl (s : CGState) : instrExt s s :=
  ⟨rfl, [], by simp, by simp⟩

theorem instrExt_trans {s t u : CGState}
    (h1 : instrExt s t) (h2 : instrExt t u) : instrExt s u := by
  obtain ⟨hc1, d1, hl1, hf1⟩ := h1
  obtain ⟨hc2, d2, hl2, hf2⟩ := h2
  refine ⟨by omega, d1 ++ d2, by simp [hl2, hl1], ?_⟩
  intro l hl
  rw [List.mem_append] at hl
  cases hl with
  | inl hm => exact hf1 l hm
  | inr hm => exact hf2 l hm

theorem instrExt_emit (a : String) (h : isDotLLabelLine a = false)
    (s : CGState) : instrExt s (emit a s) :=
  ⟨rfl, [a], rfl, by simpa using h⟩

theorem instrExt_free (r : String) (s : CGState) :
    instrExt s (free_reg r s) := by
  unfold free_reg
  split_ifs <;> exact ⟨rfl, [], by simp, by simp⟩

theorem instrExt_alloc (s : CGState) : instrExt s (alloc_reg s).2 := by
  unfold alloc_reg
  split_ifs <;> exact ⟨rfl, [], by simp, by simp⟩

theorem instrExt_op_emit (op : BOp) (a b c d : String) (s : CGState) :
    instrExt s (op_emit op a b c d s) := by
  cases op with
  | ADD => exact instrExt_emit _ (by rfl) _
  | SUB => exact instrExt_emit _ (by rfl) _
  | MUL => exact instrExt_emit _ (by rfl) _
  | DIV =>
    unfold op_emit
    split_ifs with h1
    · exact instrExt_trans (instrExt_emit _ (by rfl) _)
        (instrExt_trans (instrExt_emit "    cdq" (by rfl) _)
          (instrExt_trans (instrExt_emit _ (by rfl) _)
            (instrExt_emit _ (by rfl) _)))
    · exact instrExt_trans (instrExt_emit "    cdq" (by rfl) _)
        (instrExt_emit _ (by rfl) _)
  | EQ =>
    exact instrExt_trans (instrExt_emit _ (by rfl) _)
      (instrExt_trans (instrExt_emit _ (by rfl) _) (instrExt_emit _ (by rfl) _))
  | NE =>
    exact instrExt_trans (instrExt_emit _ (by rfl) _)
      (instrExt_trans (instrExt_emit _ (by rfl) _) (instrExt_emit _ (by rfl) _))
  | LT =>
    exact instrExt_trans (instrExt_emit _ (by rfl) _)
      (instrExt_trans (instrExt_emit _ (by rfl) _) (instrExt_emit _ (by rfl) _))
  | GT =>
    exact instrExt_trans (instrExt_emit _ (by rfl) _)
      (instrExt_trans (instrExt_emit _ (by rfl) _) (instrExt_emit _ (by rfl) _))
  | AND =>
    exact instrExt_trans (instrExt_emit _ (by rfl) _)
      (instrExt_trans (instrExt_emit _ (by rfl) _)
        (instrExt_trans (instrExt_emit _ (by rfl) _)
          (instrExt_trans (instrExt_emit _ (by rfl) _)
            (instrExt_trans (instrExt_emit _ (by rfl) _)
              (instrExt_emit _ (by rfl) _)))))
  | OR =>
    exact instrExt_trans (instrExt_emit _ (by rfl) _)
      (instrExt_trans (instrExt_emit _ (by rfl) _)
        (instrExt_trans (instrExt_emit _ (by rfl) _) (instrExt_emit _ (by rfl) _)))

theorem instrExt_pop_args (n : Nat) (s : CGState) :
    instrExt s (pop_args n s) := by
  induction n generalizing s with
  | zero => exact instrExt_refl s
  | succ m ih =>
    exact instrExt_trans (instrExt_emit _ (by rfl) _) (ih _)

mutual

/-- Expression evaluation appends only instruction lines and never
touches the label counter. -/
theorem gen_expr_lines (e : Expr) (s : CGState) (res : String) (s1 : CGState)
    (h : gen_expr e s = .ok (res, s1)) : instrExt s s1 := by
  cases e with
  | IntLiteral v =>
    simp only [gen_expr] at h
    cases halloc : alloc_reg s with
    | mk dest sa =>
      have ha : instrExt s sa := by
        have := instrExt_alloc s
        rwa [halloc] at this
      rw [halloc] at h
      by_cases hd : dest = ""
      · simp [hd] at h
        rw [← h.2]
        exact instrExt_trans ha (instrExt_emit _ (by rfl) _)
      · simp [hd] at h
        rw [← h.2]
        exact instrExt_trans ha (instrExt_emit _ (by rfl) _)
  | Identifier n =>
    simp only [gen_expr] at h
    cases hoff : offsets_at s.var_offsets n with
    | none =>
      rw [hoff] at h
      exact Except.noConfusion h
    | some off =>
      rw [hoff] at h
      cases halloc : alloc_reg s with
      | mk dest sa =>
        have ha : instrExt s sa := by
          have := instrExt_alloc s
          rwa [halloc] at this
        rw [halloc] at h
        by_cases hd : dest = ""
        · simp [hd] at h
          rw [← h.2]
          exact instrExt_trans ha (instrExt_trans
            (instrExt_emit _ (by rfl) _) (instrExt_emit _ (by rfl) _))
        · simp [hd] at h
          rw [← h.2]
          exact instrExt_trans ha (instrExt_emit _ (by rfl) _)
  | UnaryOp op e1 =>
    simp only [gen_expr] at h
    cases hg : gen_expr e1 s with
    | error exc =>
      rw [hg] at h
      simp only [bind, Except.bind] at h
      exact Except.noConfusion h
    | ok p =>
      obtain ⟨r0, sa⟩ := p
      have ih := gen_expr_lines e1 s r0 sa hg
      rw [hg] at h
      simp only [bind, Except.bind] at h
      by_cases hr : r0 = ""
      · subst hr
        simp at h
        cases op <;> simp at h <;> rw [← h.2]
        · exact instrExt_trans ih (instrExt_trans
            (instrExt_emit "    pop rax" (by rfl) _)
            (instrExt_trans (instrExt_emit "    neg eax" (by rfl) _)
              (instrExt_emit "    push rax" (by rfl) _)))
        · exact instrExt_trans ih (instrExt_trans
            (instrExt_emit "    pop rax" (by rfl) _)
            (instrExt_trans (instrExt_emit "    test eax, eax" (by rfl) _)
              (instrExt_trans (instrExt_emit "    sete al" (by rfl) _)
                (instrExt_trans (instrExt_emit "    movzx eax, al" (by rfl) _)
                  (instrExt_emit "    push rax" (by rfl) _)))))
      · simp [hr] at h
        cases op <;> simp at h <;> rw [← h.2]
        · exact instrExt_trans ih (instrExt_emit _ (by rfl) _)
        · exact instrExt_trans ih (instrExt_trans
            (instrExt_emit _ (by rfl) _)
            (instrExt_trans (instrExt_emit _ (by rfl) _)
              (instrExt_emit _ (by rfl) _)))
  | BinaryOp op l r =>
    simp only [gen_expr] at h
    cases hgl : gen_expr l s with
    | error exc =>
      rw [hgl] at h
      simp only [bind, Except.bind] at h
      exact Except.noConfusion h
    | ok p =>
      obtain ⟨lreg, sa⟩ := p
      have ihl := gen_expr_lines l s lreg sa hgl
      rw [hgl] at h
      simp only [bind, Except.bind] at h
      cases hgr : gen_expr r sa with
      | error exc =>
        rw [hgr] at h
        simp only [bind, Except.bind] at h
        exact Except.noConfusion h
      | ok q =>
        obtain ⟨rreg, sb⟩ := q
        have ihr := gen_expr_lines r sa rreg sb hgr
        rw [hgr] at h
        simp only [bind, Except.bind] at h
        have ihsb : instrExt s sb := instrExt_trans ihl ihr
        by_cases hl0 : lreg = ""
        · subst hl0
          by_cases hr0 : rreg = ""
          · subst hr0
            simp at h
            cases halloc : alloc_reg (op_emit op "eax" "ecx" "al" "cl"
                (emit "    pop rax" (emit "    pop rcx" sb))) with
            | mk dest sc =>
              have ha : instrExt sb sc := by
                have h1 := instrExt_trans
                  (instrExt_emit "    pop rcx" (by rfl) sb)
                  (instrExt_trans (instrExt_emit "    pop rax" (by rfl) _)
                    (instrExt_op_emit op "eax" "ecx" "al" "cl" _))
                have h2 := instrExt_alloc (op_emit op "eax" "ecx" "al" "cl"
                  (emit "    pop rax" (emit "    pop rcx" sb)))
                rw [halloc] at h2
                exact instrExt_trans h1 h2
              rw [halloc] at h
              by_cases hd : dest = ""
              · simp [hd] at h
                rw [← h.2]
                exact instrExt_trans ihsb (instrExt_trans ha
                  (instrExt_emit "    push rax" (by rfl) _))
              · simp [hd] at h
                rw [← h.2]
                exact instrExt_trans ihsb (instrExt_trans ha
                  (instrExt_emit _ (by rfl) _))
          · simp [hr0] at h
            rw [← h.2]
            exact instrExt_trans ihsb (instrExt_trans
              (instrExt_emit "    pop rax" (by rfl) _)
              (instrExt_trans (instrExt_op_emit op "eax" _ "al" _ _)
                (instrExt_emit _ (by rfl) _)))
        · simp [hl0] at h
          rw [← h.2]
          by_cases hr0 : rreg = ""
          · simp only [hr0, if_pos rfl, ite_true]
            exact instrExt_trans ihsb (instrExt_trans
              (instrExt_emit "    pop rcx" (by rfl) _)
              (instrExt_trans (instrExt_op_emit op _ _ _ _ _)
                (instrExt_free _ _)))
          · simp only [hr0, if_neg hr0, ite_false]
            exact instrExt_trans ihsb (instrExt_trans
              (instrExt_op_emit op _ _ _ _ _) (instrExt_free _ _))
  | FuncCall n args =>
    simp only [gen_expr] at h
    by_cases hlen : args.length > 6
    · simp [hlen] at h
    · rw [if_neg hlen] at h
      cases hga : gen_args args s with
      | error exc =>
        rw [hga] at h
        simp only [bind, Except.bind] at h
        exact Except.noConfusion h
      | ok sa =>
        have ih := gen_args_lines args s sa hga
        rw [hga] at h
        simp only [bind, Except.bind] at h
        cases halloc : alloc_reg (emit ("    call " ++ n)
            (pop_args args.length sa)) with
        | mk dest sc =>
          have ha : instrExt sa sc := by
            have h1 := instrExt_trans (instrExt_pop_args args.length sa)
              (instrExt_emit ("    call " ++ n) (by rfl) _)
            have h2 := instrExt_alloc (emit ("    call " ++ n)
              (pop_args args.length sa))
            rw [halloc] at h2
            exact instrExt_trans h1 h2
          rw [halloc] at h
          by_cases hd : dest = ""
          · simp [hd] at h
            rw [← h.2]
            exact instrExt_trans ih (instrExt_trans ha
              (instrExt_emit "    push rax" (by rfl) _))
          · simp [hd] at h
            rw [← h.2]
            exact instrExt_trans ih (instrExt_trans ha
              (instrExt_emit _ (by rfl) _))

/-- The argument loop appends only instruction lines. -/
theorem gen_args_lines (es : ExprList) (s : CGState) (s1 : CGState)
    (h : gen_args es s = .ok s1) : instrExt s s1 := by
  cases es with
  | nil =>
    simp only [gen_args] at h
    simp at h
    subst h
    exact instrExt_refl s
  | cons a t =>
    simp only [gen_args] at h
    cases hg : gen_expr a s with
    | error exc =>
      rw [hg] at h
      simp only [bind, Except.bind] at h
      exact Except.noConfusion h
    | ok p =>
      obtain ⟨areg, sa⟩ := p
      have ihe := gen_expr_lines a s areg sa hg
      rw [hg] at h
      simp only [bind, Except.bind] at h
      by_cases ha : areg = ""
      · subst ha
        simp at h
        exact instrExt_trans ihe (gen_args_lines t sa s1 h)
      · simp [ha] at h
        exact instrExt_trans ihe (instrExt_trans
          (instrExt_trans (instrExt_emit _ (by rfl) _) (instrExt_free _ _))
          (gen_args_lines t _ s1 h))

end
/-- No codegen helper writes the `epilogue_label` field: projections
through `emit`, `free_reg`, `alloc_reg`, `op_emit` and `pop_args`. -/
theorem emit_epilogue (a : String) (s : CGState) :
    (emit a s).epilogue_label = s.epilogue_label := rfl

theorem free_reg_epilogue (r : String) (s : CGState) :
    (free_reg r s).epilogue_label = s.epilogue_label := by
  unfold free_reg
  split_ifs <;> rfl

theorem alloc_reg_epilogue (s : CGState) :
    (alloc_reg s).2.epilogue_label = s.epilogue_label := by
  unfold alloc_reg
  split_ifs <;> rfl

/-- The relation "same epilogue label", the invariant carried through a
function body: `gen_function` relies on the label it installed still
being in place when it emits the common epilogue. -/
def epiEq (s s1 : CGState) : Prop :=
  s1.epilogue_label = s.epilogue_label

theorem epi_refl (s : CGState) : epiEq s s := rfl

theorem epi_trans {s t u : CGState} (h1 : epiEq s t) (h2 : epiEq t u) :
    epiEq s u := h2.trans h1

theorem epi_emit (a : String) (s : CGState) : epiEq s (emit a s) := rfl

theorem epi_free (r : String) (s : CGState) : epiEq s (free_reg r s) :=
  free_reg_epilogue r s

theorem epi_alloc (s : CGState) : epiEq s (alloc_reg s).2 :=
  alloc_reg_epilogue s

theorem epi_op_emit (op : BOp) (a b c d : String) (s : CGState) :
    epiEq s (op_emit op a b c d s) := by
  cases op <;> first
    | rfl
    | (unfold op_emit epiEq; split_ifs <;> rfl)

theorem epi_pop_args (n : Nat) (s : CGState) : epiEq s (pop_args n s) := by
  induction n generalizing s with
  | zero => exact epi_refl s
  | succ m ih => exact ih _

mutual

/-- Expression evaluation never touches the shared epilogue label. -/
theorem gen_expr_epi (e : Expr) (s : CGState) (res : String) (s1 : CGState)
    (h : gen_expr e s = .ok (res, s1)) : epiEq s s1 := by
  cases e with
  | IntLiteral v =>
    simp only [gen_expr] at h
    cases halloc : alloc_reg s with
    | mk dest sa =>
      have ha : epiEq s sa := by
        have := epi_alloc s
        rwa [halloc] at this
      rw [halloc] at h
      by_cases hd : dest = ""
      · simp [hd] at h
        rw [← h.2]
        exact epi_trans ha (epi_emit _ _)
      · simp [hd] at h
        rw [← h.2]
        exact epi_trans ha (epi_emit _ _)
  | Identifier n =>
    simp only [gen_expr] at h
    cases hoff : offsets_at s.var_offsets n with
    | none =>
      rw [hoff] at h
      exact Except.noConfusion h
    | some off =>
      rw [hoff] at h
      cases halloc : alloc_reg s with
      | mk dest sa =>
        have ha : epiEq s sa := by
          have := epi_alloc s
          rwa [halloc] at this
        rw [halloc] at h
        by_cases hd : dest = ""
        · simp [hd] at h
          rw [← h.2]
          exact epi_trans ha (epi_trans
            (epi_emit _ _) (epi_emit _ _))
        · simp [hd] at h
          rw [← h.2]
          exact epi_trans ha (epi_emit _ _)
  | UnaryOp op e1 =>
    simp only [gen_expr] at h
    cases hg : gen_expr e1 s with
    | error exc =>
      rw [hg] at h
      simp only [bind, Except.bind] at h
      exact Except.noConfusion h
    | ok p =>
      obtain ⟨r0, sa⟩ := p
      have ih := gen_expr_epi e1 s r0 sa hg
      rw [hg] at h
      simp only [bind, Except.bind] at h
      by_cases hr : r0 = ""
      · subst hr
        simp at h
        cases op <;> simp at h <;> rw [← h.2]
        · exact epi_trans ih (epi_trans
            (epi_emit "    pop rax" _)
            (epi_trans (epi_emit "    neg eax" _)
              (epi_emit "    push rax" _)))
        · exact epi_trans ih (epi_trans
            (epi_emit "    pop rax" _)
            (epi_trans (epi_emit "    test eax, eax" _)
              (epi_trans (epi_emit "    sete al" _)
                (epi_trans (epi_emit "    movzx eax, al" _)
                  (epi_emit "    push rax" _)))))
      · simp [hr] at h
        cases op <;> simp at h <;> rw [← h.2]
        · exact epi_trans ih (epi_emit _ _)
        · exact epi_trans ih (epi_trans
            (epi_emit _ _)
            (epi_trans (epi_emit _ _)
              (epi_emit _ _)))
  | BinaryOp op l r =>
    simp only [gen_expr] at h
    cases hgl : gen_expr l s with
    | error exc =>
      rw [hgl] at h
      simp only [bind, Except.bind] at h
      exact Except.noConfusion h
    | ok p =>
      obtain ⟨lreg, sa⟩ := p
      have ihl := gen_expr_epi l s lreg sa hgl
      rw [hgl] at h
      simp only [bind, Except.bind] at h
      cases hgr : gen_expr r sa with
      | error exc =>
        rw [hgr] at h
        simp only [bind, Except.bind] at h
        exact Except.noConfusion h
      | ok q =>
        obtain ⟨rreg, sb⟩ := q
        have ihr := gen_expr_epi r sa rreg sb hgr
        rw [hgr] at h
        simp only [bind, Except.bind] at h
        have ihsb : epiEq s sb := epi_trans ihl ihr
        by_cases hl0 : lreg = ""
        · subst hl0
          by_cases hr0 : rreg = ""
          · subst hr0
            simp at h
            cases halloc : alloc_reg (op_emit op "eax" "ecx" "al" "cl"
                (emit "    pop rax" (emit "    pop rcx" sb))) with
            | mk dest sc =>
              have ha : epiEq sb sc := by
                have h1 := epi_trans
                  (epi_emit "    pop rcx" sb)
                  (epi_trans (epi_emit "    pop rax" _)
                    (epi_op_emit op "eax" "ecx" "al" "cl" _))
                have h2 := epi_alloc (op_emit op "eax" "ecx" "al" "cl"
                  (emit "    pop rax" (emit "    pop rcx" sb)))
                rw [halloc] at h2
                exact epi_trans h1 h2
              rw [halloc] at h
              by_cases hd : dest = ""
              · simp [hd] at h
                rw [← h.2]
                exact epi_trans ihsb (epi_trans ha
                  (epi_emit "    push rax" _))
              · simp [hd] at h
                rw [← h.2]
                exact epi_trans ihsb (epi_trans ha
                  (epi_emit _ _))
          · simp [hr0] at h
            rw [← h.2]
            exact epi_trans ihsb (epi_trans
              (epi_emit "    pop rax" _)
              (epi_trans (epi_op_emit op "eax" _ "al" _ _)
                (epi_emit _ _)))
        · simp [hl0] at h
          rw [← h.2]
          by_cases hr0 : rreg = ""
          · simp only [hr0, if_pos rfl, ite_true]
            exact epi_trans ihsb (epi_trans
              (epi_emit "    pop rcx" _)
              (epi_trans (epi_op_emit op _ _ _ _ _)
                (epi_free _ _)))
          · simp only [hr0, if_neg hr0, ite_false]
            exact epi_trans ihsb (epi_trans
              (epi_op_emit op _ _ _ _ _) (epi_free _ _))
  | FuncCall n args =>
    simp only [gen_expr] at h
    by_cases hlen : args.length > 6
    · simp [hlen] at h
    · rw [if_neg hlen] at h
      cases hga : gen_args args s with
      | error exc =>
        rw [hga] at h
        simp only [bind, Except.bind] at h
        exact Except.noConfusion h
      | ok sa =>
        have ih := gen_args_epi args s sa hga
        rw [hga] at h
        simp only [bind, Except.bind] at h
        cases halloc : alloc_reg (emit ("    call " ++ n)
            (pop_args args.length sa)) with
        | mk dest sc =>
          have ha : epiEq sa sc := by
            have h1 := epi_trans (epi_pop_args args.length sa)
              (epi_emit ("    call " ++ n) _)
            have h2 := epi_alloc (emit ("    call " ++ n)
              (pop_args args.length sa))
            rw [halloc] at h2
            exact epi_trans h1 h2
          rw [halloc] at h
          by_cases hd : dest = ""
          · simp [hd] at h
            rw [← h.2]
            exact epi_trans ih (epi_trans ha
              (epi_emit "    push rax" _))
          · simp [hd] at h
            rw [← h.2]
            exact epi_trans ih (epi_trans ha
              (epi_emit _ _))

/-- The argument loop never touches the shared epilogue label. -/
theorem gen_args_epi (es : ExprList) (s : CGState) (s1 : CGState)
    (h : gen_args es s = .ok s1) : epiEq s s1 := by
  cases es with
  | nil =>
    simp only [gen_args] at h
    simp at h
    subst h
    exact epi_refl s
  | cons a t =>
    simp only [gen_args] at h
    cases hg : gen_expr a s with
    | error exc =>
      rw [hg] at h
      simp only [bind, Except.bind] at h
      exact Except.noConfusion h
    | ok p =>
      obtain ⟨areg, sa⟩ := p
      have ihe := gen_expr_epi a s areg sa hg
      rw [hg] at h
      simp only [bind, Except.bind] at h
      by_cases ha : areg = ""
      · subst ha
        simp at h
        exact epi_trans ihe (gen_args_epi t sa s1 h)
      · simp [ha] at h
        exact epi_trans ihe (epi_trans
          (epi_trans (epi_emit _ _) (epi_free _ _))
          (gen_args_epi t _ s1 h))

end


/-- `emit` leaves the label counter alone. -/
theorem emit_counter (a : String) (s : CGState) :
    (emit a s).label_counter = s.label_counter := rfl

/-- `free_reg` leaves the label counter alone. -/
theorem free_reg_counter (r : String) (s : CGState) :
    (free_reg r s).label_counter = s.label_counter := by
  unfold free_reg
  split_ifs <;> rfl

/-- Extension of a state by a line segment whose branch-target labels
are fresh: all drawn from the counter interval the extension spans. -/
def labelExt (s s1 : CGState) : Prop :=
  s.label_counter ≤ s1.label_counter ∧
  ∃ d, s1.lines = s.lines ++ d ∧
    labelLinesIn s.label_counter s1.label_counter d

theorem labelExt_of_instr {s s1 : CGState} (h : instrExt s s1) :
    labelExt s s1 := by
  obtain ⟨hc, d, hl, hf⟩ := h
  exact ⟨by omega, d, hl, labelLinesIn_instr _ _ d hf⟩

theorem labelExt_trans {s t u : CGState}
    (h1 : labelExt s t) (h2 : labelExt t u) : labelExt s u := by
  obtain ⟨hc1, d1, hl1, hf1⟩ := h1
  obtain ⟨hc2, d2, hl2, hf2⟩ := h2
  refine ⟨by omega, d1 ++ d2, by simp [hl2, hl1], ?_⟩
  exact labelLinesIn_append s.label_counter u.label_counter
    s.label_counter t.label_counter t.label_counter u.label_counter
    d1 d2 hf1 hf2 (Or.inl le_rfl) le_rfl hc1 hc2 le_rfl

mutual

/-- Statement codegen only emits branch-target labels drawn freshly
from the monotone counter: the counter never decreases and the labels
appended by one statement are pairwise distinct, all from the interval
the counter traversed. -/
theorem gen_stmt_labels (st : Stmt) (s : CGState) (s1 : CGState)
    (h : gen_stmt st s = .ok s1) : labelExt s s1 := by
  cases st with
  | ReturnStmt v =>
    simp only [gen_stmt] at h
    cases hg : gen_expr v s with
    | error exc =>
      rw [hg] at h
      simp only [bind, Except.bind] at h
      exact Except.noConfusion h
    | ok p =>
      obtain ⟨reg, sa⟩ := p
      have ih := gen_expr_lines v s reg sa hg
      rw [hg] at h
      simp only [bind, Except.bind] at h
      simp at h
      rw [← h]
      refine labelExt_of_instr (instrExt_trans ih ?_)
      by_cases hr : reg = ""
      · simp [hr]
        exact instrExt_trans (instrExt_emit "    pop rax" (by rfl) _)
          (instrExt_emit _ (by rfl) _)
      · simp [hr]
        exact instrExt_trans
          (instrExt_trans (instrExt_emit _ (by rfl) _) (instrExt_free _ _))
          (instrExt_emit _ (by rfl) _)
  | VarDecl n init =>
    simp only [gen_stmt] at h
    cases init with
    | none =>
      simp at h
      rw [← h]
      exact labelExt_of_instr (instrExt_trans ⟨rfl, [], by simp, by simp⟩
        (instrExt_emit "    sub rsp, 8" (by rfl) _))
    | some e =>
      dsimp only at h
      cases hg : gen_expr e (emit "    sub rsp, 8"
          { s with next_var_offset := s.next_var_offset - 8,
                   var_offsets := (n, s.next_var_offset - 8) :: s.var_offsets }) with
      | error exc =>
        rw [hg] at h
        simp only [bind, Except.bind] at h
        exact Except.noConfusion h
      | ok p =>
        obtain ⟨reg, sa⟩ := p
        have ih := gen_expr_lines e _ reg sa hg
        rw [hg] at h
        simp only [bind, Except.bind] at h
        have hpre : instrExt s (emit "    sub rsp, 8"
            { s with next_var_offset := s.next_var_offset - 8,
                     var_offsets := (n, s.next_var_offset - 8) :: s.var_offsets }) :=
          instrExt_trans ⟨rfl, [], by simp, by simp⟩
            (instrExt_emit "    sub rsp, 8" (by rfl) _)
        refine labelExt_of_instr (instrExt_trans hpre (instrExt_trans ih ?_))
        by_cases hr : reg = "" <;> simp [hr] at h <;> rw [← h]
        · exact instrExt_trans (instrExt_emit "    pop rax" (by rfl) _)
            (instrExt_emit _ (by rfl) _)
        · exact instrExt_trans (instrExt_emit _ (by rfl) _) (instrExt_free _ _)
  | Assignment n v =>
    simp only [gen_stmt] at h
    cases hg : gen_expr v s with
    | error exc =>
      rw [hg] at h
      simp only [bind, Except.bind] at h
      exact Except.noConfusion h
    | ok p =>
      obtain ⟨reg, sa⟩ := p
      have ih := gen_expr_lines v s reg sa hg
      rw [hg] at h
      simp only [bind, Except.bind] at h
      cases hoff : offsets_at sa.var_offsets n with
      | none =>
        rw [hoff] at h
        exact Except.noConfusion h
      | some off =>
        rw [hoff] at h
        refine labelExt_of_instr (instrExt_trans ih ?_)
        by_cases hr : reg = "" <;> simp [hr] at h <;> rw [← h]
        · exact instrExt_trans (instrExt_emit "    pop rax" (by rfl) _)
            (instrExt_emit _ (by rfl) _)
        · exact instrExt_trans (instrExt_emit _ (by rfl) _) (instrExt_free _ _)
  | ExprStmt e =>
    simp only [gen_stmt] at h
    cases hg : gen_expr e s with
    | error exc =>
      rw [hg] at h
      simp only [bind, Except.bind] at h
      exact Except.noConfusion h
    | ok p =>
      obtain ⟨reg, sa⟩ := p
      have ih := gen_expr_lines e s reg sa hg
      rw [hg] at h
      simp only [bind, Except.bind] at h
      refine labelExt_of_instr (instrExt_trans ih ?_)
      by_cases hr : reg = "" <;> simp [hr] at h <;> rw [← h]
      · exact instrExt_emit "    pop rax" (by rfl) _
      · exact instrExt_free _ _
  | BlockStmt b =>
    simp only [gen_stmt] at h
    exact gen_block_labels b s s1 h
  | IfStmt c tb =>
    simp only [gen_stmt] at h
    cases hg : gen_expr c { s with label_counter := s.label_counter + 2 } with
    | error exc =>
      rw [hg] at h
      simp only [bind, Except.bind] at h
      exact Except.noConfusion h
    | ok p =>
      obtain ⟨reg, sa⟩ := p
      have ihc := gen_expr_lines c _ reg sa hg
      rw [hg] at h
      simp only [bind, Except.bind] at h
      cases hgb : gen_block tb (emit ("    je " ++
          (".L" ++ natToDec s.label_counter))
          (if reg ≠ "" then
            free_reg reg (emit ("    test " ++ reg32 reg ++ ", " ++ reg32 reg) sa)
          else emit "    test eax, eax" (emit "    pop rax" sa))) with
      | error exc =>
        rw [hgb] at h
        simp only [bind, Except.bind] at h
        exact Except.noConfusion h
      | ok sb =>
        have ihb := gen_block_labels tb _ sb hgb
        rw [hgb] at h
        simp only [bind, Except.bind] at h
        simp at h
        -- the pre-body extension appends only instruction lines and
        -- ends with the counter at s.label_counter + 2
        have hpre : instrExt { s with label_counter := s.label_counter + 2 }
            (emit ("    je " ++ (".L" ++ natToDec s.label_counter))
              (if reg ≠ "" then
                free_reg reg (emit ("    test " ++ reg32 reg ++ ", " ++
                  reg32 reg) sa)
              else emit "    test eax, eax" (emit "    pop rax" sa))) := by
          refine instrExt_trans ihc (instrExt_trans ?_
            (instrExt_emit _ (by rfl) _))
          by_cases hr : reg = ""
          · simp [hr]
            exact instrExt_trans (instrExt_emit "    pop rax" (by rfl) _)
              (instrExt_emit "    test eax, eax" (by rfl) _)
          · simp [hr]
            exact instrExt_trans (instrExt_emit _ (by rfl) _)
              (instrExt_free _ _)
        obtain ⟨hcpre, d0, hld0, hfd0⟩ := hpre
        obtain ⟨hcb, dB, hldB, hfdB⟩ := ihb
        have hcpre2 : (emit ("    je " ++ (".L" ++ natToDec s.label_counter))
            (if reg ≠ "" then
              free_reg reg (emit ("    test " ++ reg32 reg ++ ", " ++
                reg32 reg) sa)
            else emit "    test eax, eax" (emit "    pop rax" sa))).label_counter =
            s.label_counter + 2 := hcpre
        rw [hcpre2] at hcb hfdB
        have hs1c : s1.label_counter = sb.label_counter := by
          rw [← h]
          rfl
        have hs1l : s1.lines = sb.lines ++
            ["    jmp " ++ (".L" ++ natToDec (s.label_counter + 1)),
             ".L" ++ natToDec s.label_counter ++ ":",
             ".L" ++ natToDec (s.label_counter + 1) ++ ":"] := by
          rw [← h]
          simp [emit_lines]
        refine ⟨by omega,
          (d0 ++ (dB ++ ["    jmp " ++ (".L" ++ natToDec (s.label_counter + 1))]))
            ++ ([".L" ++ natToDec s.label_counter ++ ":"] ++
                [".L" ++ natToDec (s.label_counter + 1) ++ ":"]), ?_, ?_⟩
        · rw [hs1l, hldB, hld0]
          simp [List.append_assoc]
        · have hjmp : labelLinesIn (s.label_counter + 2) sb.label_counter
              (dB ++ ["    jmp " ++ (".L" ++ natToDec (s.label_counter + 1))]) :=
            labelLinesIn_append (s.label_counter + 2) sb.label_counter
              (s.label_counter + 2) sb.label_counter
              sb.label_counter sb.label_counter _ _
              hfdB (labelLinesIn_instr _ _ _ (by intro l hl; simp at hl; rw [hl]; rfl))
              (Or.inl le_rfl) le_rfl hcb le_rfl le_rfl
          have hfront : labelLinesIn (s.label_counter + 2) sb.label_counter
              (d0 ++ (dB ++ ["    jmp " ++ (".L" ++ natToDec (s.label_counter + 1))])) :=
            labelLinesIn_append (s.label_counter + 2) sb.label_counter
              (s.label_counter + 2) (s.label_counter + 2)
              (s.label_counter + 2) sb.label_counter _ _
              (labelLinesIn_instr _ _ _ hfd0) hjmp
              (Or.inl le_rfl) le_rfl le_rfl hcb le_rfl
          have hlabels : labelLinesIn s.label_counter (s.label_counter + 2)
              ([".L" ++ natToDec s.label_counter ++ ":"] ++
               [".L" ++ natToDec (s.label_counter + 1) ++ ":"]) :=
            labelLinesIn_append s.label_counter (s.label_counter + 2)
              s.label_counter (s.label_counter + 1)
              (s.label_counter + 1) (s.label_counter + 2) _ _
              (labelLinesIn_single _ _ _ le_rfl (by omega))
              (labelLinesIn_single _ _ _ le_rfl (by omega))
              (Or.inl le_rfl) le_rfl (by omega) (by omega) le_rfl
          have := labelLinesIn_append s.label_counter sb.label_counter
            (s.label_counter + 2) sb.label_counter
            s.label_counter (s.label_counter + 2) _ _
            hfront hlabels (Or.inr le_rfl) (by omega) le_rfl le_rfl (by omega)
          rw [hs1c]
          exact this
  | WhileStmt c b =>
    simp only [gen_stmt] at h
    cases hg : gen_expr c (emit ((".L" ++ natToDec s.label_counter) ++ ":")
        { s with label_counter := s.label_counter + 2 }) with
    | error exc =>
      rw [hg] at h
      simp only [bind, Except.bind] at h
      exact Except.noConfusion h
    | ok p =>
      obtain ⟨reg, sa⟩ := p
      have ihc := gen_expr_lines c _ reg sa hg
      rw [hg] at h
      simp only [bind, Except.bind] at h
      cases hgb : gen_block b (emit ("    je " ++
          (".L" ++ natToDec (s.label_counter + 1)))
          (if reg ≠ "" then
            free_reg reg (emit ("    test " ++ reg32 reg ++ ", " ++ reg32 reg) sa)
          else emit "    test eax, eax" (emit "    pop rax" sa))) with
      | error exc =>
        rw [hgb] at h
        simp only [bind, Except.bind] at h
        exact Except.noConfusion h
      | ok sb =>
        have ihb := gen_block_labels b _ sb hgb
        rw [hgb] at h
        simp only [bind, Except.bind] at h
        simp at h
        have hpre : instrExt (emit ((".L" ++ natToDec s.label_counter) ++ ":")
            { s with label_counter := s.label_counter + 2 })
            (emit ("    je " ++ (".L" ++ natToDec (s.label_counter + 1)))
              (if reg ≠ "" then
                free_reg reg (emit ("    test " ++ reg32 reg ++ ", " ++
                  reg32 reg) sa)
              else emit "    test eax, eax" (emit "    pop rax" sa))) := by
          refine instrExt_trans ihc (instrExt_trans ?_
            (instrExt_emit _ (by rfl) _))
          by_cases hr : reg = ""
          · simp [hr]
            exact instrExt_trans (instrExt_emit "    pop rax" (by rfl) _)
              (instrExt_emit "    test eax, eax" (by rfl) _)
          · simp [hr]
            exact instrExt_trans (instrExt_emit _ (by rfl) _)
              (instrExt_free _ _)
        obtain ⟨hcpre, d0, hld0, hfd0⟩ := hpre
        obtain ⟨hcb, dB, hldB, hfdB⟩ := ihb
        have hcpre2 : (emit ("    je " ++ (".L" ++ natToDec (s.label_counter + 1)))
            (if reg ≠ "" then
              free_reg reg (emit ("    test " ++ reg32 reg ++ ", " ++
                reg32 reg) sa)
            else emit "    test eax, eax" (emit "    pop rax" sa))).label_counter =
            s.label_counter + 2 := hcpre
        rw [hcpre2] at hcb hfdB
        have hs1c : s1.label_counter = sb.label_counter := by
          rw [← h]
          rfl
        have hs1l : s1.lines = sb.lines ++
            ["    jmp " ++ (".L" ++ natToDec s.label_counter),
             ".L" ++ natToDec (s.label_counter + 1) ++ ":"] := by
          rw [← h]
          simp [emit_lines]
        refine ⟨by omega,
          [".L" ++ natToDec s.label_counter ++ ":"] ++
            ((d0 ++ (dB ++ ["    jmp " ++ (".L" ++ natToDec s.label_counter)]))
              ++ [".L" ++ natToDec (s.label_counter + 1) ++ ":"]), ?_, ?_⟩
        · rw [hs1l, hldB, hld0]
          simp [emit_lines, List.append_assoc]
        · have hjmp : labelLinesIn (s.label_counter + 2) sb.label_counter
              (dB ++ ["    jmp " ++ (".L" ++ natToDec s.label_counter)]) :=
            labelLinesIn_append (s.label_counter + 2) sb.label_counter
              (s.label_counter + 2) sb.label_counter
              sb.label_counter sb.label_counter _ _
              hfdB (labelLinesIn_instr _ _ _ (by intro l hl; simp at hl; rw [hl]; rfl))
              (Or.inl le_rfl) le_rfl hcb le_rfl le_rfl
          have hfront : labelLinesIn (s.label_counter + 2) sb.label_counter
              (d0 ++ (dB ++ ["    jmp " ++ (".L" ++ natToDec s.label_counter)])) :=
            labelLinesIn_append (s.label_counter + 2) sb.label_counter
              (s.label_counter + 2) (s.label_counter + 2)
              (s.label_counter + 2) sb.label_counter _ _
              (labelLinesIn_instr _ _ _ hfd0) hjmp
              (Or.inl le_rfl) le_rfl le_rfl hcb le_rfl
          have hmid : labelLinesIn (s.label_counter + 1) sb.label_counter
              ((d0 ++ (dB ++ ["    jmp " ++ (".L" ++ natToDec s.label_counter)]))
                ++ [".L" ++ natToDec (s.label_counter + 1) ++ ":"]) :=
            labelLinesIn_append (s.label_counter + 1) sb.label_counter
              (s.label_counter + 2) sb.label_counter
              (s.label_counter + 1) (s.label_counter + 2) _ _
              hfront (labelLinesIn_single _ _ _ le_rfl (by omega))
              (Or.inr le_rfl) (by omega) le_rfl le_rfl (by omega)
          have := labelLinesIn_append s.label_counter sb.label_counter
            s.label_counter (s.label_counter + 1)
            (s.label_counter + 1) sb.label_counter _ _
            (labelLinesIn_single _ _ _ le_rfl (by omega)) hmid
            (Or.inl le_rfl) le_rfl (by omega) (by omega) le_rfl
          rw [hs1c]
          exact this

/-- Block codegen only emits branch-target labels drawn freshly from
the monotone counter. -/
theorem gen_block_labels (b : StmtList) (s : CGState) (s1 : CGState)
    (h : gen_block b s = .ok s1) : labelExt s s1 := by
  cases b with
  | nil =>
    simp only [gen_block] at h
    simp at h
    subst h
    exact labelExt_of_instr (instrExt_refl s)
  | cons st t =>
    simp only [gen_block] at h
    cases hg : gen_stmt st s with
    | error exc =>
      rw [hg] at h
      simp only [bind, Except.bind] at h
      exact Except.noConfusion h
    | ok sa =>
      have ih1 := gen_stmt_labels st s sa hg
      rw [hg] at h
      simp only [bind, Except.bind] at h
      exact labelExt_trans ih1 (gen_block_labels t sa s1 h)

end

mutual

/-- Statement codegen never touches the shared epilogue label. -/
theorem gen_stmt_epi (st : Stmt) (s : CGState) (s1 : CGState)
    (h : gen_stmt st s = .ok s1) : s1.epilogue_label = s.epilogue_label := by
  cases st with
  | ReturnStmt v =>
    simp only [gen_stmt] at h
    cases hg : gen_expr v s with
    | error exc =>
      rw [hg] at h
      simp only [bind, Except.bind] at h
      exact Except.noConfusion h
    | ok p =>
      obtain ⟨reg, sa⟩ := p
      have ihe : sa.epilogue_label = s.epilogue_label := gen_expr_epi v s reg sa hg
      rw [hg] at h
      simp only [bind, Except.bind] at h
      simp at h
      rw [← h]
      by_cases hr : reg = "" <;>
        simp [hr, emit_epilogue, free_reg_epilogue, ihe]
  | VarDecl n init =>
    simp only [gen_stmt] at h
    cases init with
    | none =>
      simp at h
      rw [← h]
      simp [emit_epilogue]
    | some e =>
      dsimp only at h
      cases hg : gen_expr e (emit "    sub rsp, 8"
          { s with next_var_offset := s.next_var_offset - 8,
                   var_offsets := (n, s.next_var_offset - 8) :: s.var_offsets }) with
      | error exc =>
        rw [hg] at h
        simp only [bind, Except.bind] at h
        exact Except.noConfusion h
      | ok p =>
        obtain ⟨reg, sa⟩ := p
        have ihe : sa.epilogue_label = s.epilogue_label :=
          (gen_expr_epi e _ reg sa hg).trans rfl
        rw [hg] at h
        simp only [bind, Except.bind] at h
        by_cases hr : reg = "" <;> simp [hr] at h <;> rw [← h] <;>
          simp [emit_epilogue, free_reg_epilogue, ihe]
  | Assignment n v =>
    simp only [gen_stmt] at h
    cases hg : gen_expr v s with
    | error exc =>
      rw [hg] at h
      simp only [bind, Except.bind] at h
      exact Except.noConfusion h
    | ok p =>
      obtain ⟨reg, sa⟩ := p
      have ihe : sa.epilogue_label = s.epilogue_label := gen_expr_epi v s reg sa hg
      rw [hg] at h
      simp only [bind, Except.bind] at h
      cases hoff : offsets_at sa.var_offsets n with
      | none =>
        rw [hoff] at h
        exact Except.noConfusion h
      | some off =>
        rw [hoff] at h
        by_cases hr : reg = "" <;> simp [hr] at h <;> rw [← h] <;>
          simp [emit_epilogue, free_reg_epilogue, ihe]
  | ExprStmt e =>
    simp only [gen_stmt] at h
    cases hg : gen_expr e s with
    | error exc =>
      rw [hg] at h
      simp only [bind, Except.bind] at h
      exact Except.noConfusion h
    | ok p =>
      obtain ⟨reg, sa⟩ := p
      have ihe : sa.epilogue_label = s.epilogue_label := gen_expr_epi e s reg sa hg
      rw [hg] at h
      simp only [bind, Except.bind] at h
      by_cases hr : reg = "" <;> simp [hr] at h <;> rw [← h] <;>
        simp [emit_epilogue, free_reg_epilogue, ihe]
  | BlockStmt b =>
    simp only [gen_stmt] at h
    exact gen_block_epi b s s1 h
  | IfStmt c tb =>
    simp only [gen_stmt] at h
    cases hg : gen_expr c { s with label_counter := s.label_counter + 2 } with
    | error exc =>
      rw [hg] at h
      simp only [bind, Except.bind] at h
      exact Except.noConfusion h
    | ok p =>
      obtain ⟨reg, sa⟩ := p
      have ihc : sa.epilogue_label = s.epilogue_label :=
        (gen_expr_epi c _ reg sa hg).trans rfl
      rw [hg] at h
      simp only [bind, Except.bind] at h
      cases hgb : gen_block tb (emit ("    je " ++
          (".L" ++ natToDec s.label_counter))
          (if reg ≠ "" then
            free_reg reg (emit ("    test " ++ reg32 reg ++ ", " ++ reg32 reg) sa)
          else emit "    test eax, eax" (emit "    pop rax" sa))) with
      | error exc =>
        rw [hgb] at h
        simp only [bind, Except.bind] at h
        exact Except.noConfusion h
      | ok sb =>
        have ihb := gen_block_epi tb _ sb hgb
        rw [hgb] at h
        simp only [bind, Except.bind] at h
        simp at h
        have hsb : sb.epilogue_label = s.epilogue_label := by
          rw [ihb]
          by_cases hr : reg = "" <;>
            simp [hr, emit_epilogue, free_reg_epilogue, ihc]
        rw [← h]
        simp [emit_epilogue, hsb]
  | WhileStmt c b =>
    simp only [gen_stmt] at h
    cases hg : gen_expr c (emit ((".L" ++ natToDec s.label_counter) ++ ":")
        { s with label_counter := s.label_counter + 2 }) with
    | error exc =>
      rw [hg] at h
      simp only [bind, Except.bind] at h
      exact Except.noConfusion h
    | ok p =>
      obtain ⟨reg, sa⟩ := p
      have ihc : sa.epilogue_label = s.epilogue_label :=
        (gen_expr_epi c _ reg sa hg).trans rfl
      rw [hg] at h
      simp only [bind, Except.bind] at h
      cases hgb : gen_block b (emit ("    je " ++
          (".L" ++ natToDec (s.label_counter + 1)))
          (if reg ≠ "" then
            free_reg reg (emit ("    test " ++ reg32 reg ++ ", " ++ reg32 reg) sa)
          else emit "    test eax, eax" (emit "    pop rax" sa))) with
      | error exc =>
        rw [hgb] at h
        simp only [bind, Except.bind] at h
        exact Except.noConfusion h
      | ok sb =>
        have ihb := gen_block_epi b _ sb hgb
        rw [hgb] at h
        simp only [bind, Except.bind] at h
        simp at h
        have hsb : sb.epilogue_label = s.epilogue_label := by
          rw [ihb]
          by_cases hr : reg = "" <;>
            simp [hr, emit_epilogue, free_reg_epilogue, ihc]
        rw [← h]
        simp [emit_epilogue, hsb]

/-- Block codegen never touches the shared epilogue label. -/
theorem gen_block_epi (b : StmtList) (s : CGState) (s1 : CGState)
    (h : gen_block b s = .ok s1) : s1.epilogue_label = s.epilogue_label := by
  cases b with
  | nil =>
    simp only [gen_block] at h
    simp at h
    subst h
    rfl
  | cons st t =>
    simp only [gen_block] at h
    cases hg : gen_stmt st s with
    | error exc =>
      rw [hg] at h
      simp only [bind, Except.bind] at h
      exact Except.noConfusion h
    | ok sa =>
      have ih1 := gen_stmt_epi st s sa hg
      rw [hg] at h
      simp only [bind, Except.bind] at h
      exact (gen_block_epi t sa s1 h).trans ih1

end

/-- Homing the parameters appends only instruction lines and leaves
the label counter alone. -/
theorem gen_params_instr (ps : List String) (i : Nat) (s : CGState) :
    instrExt s (gen_params ps i s) := by
  induction ps generalizing i s with
  | nil => exact instrExt_refl s
  | cons p rest ih =>
    exact instrExt_trans (instrExt_trans ⟨rfl, [], by simp, by simp⟩
      (instrExt_trans (instrExt_emit "    sub rsp, 8" (by rfl) _)
        (instrExt_emit _ (by rfl) _))) (ih _ _)

/-- Homing the parameters leaves the epilogue label alone. -/
theorem gen_params_epilogue (ps : List String) (i : Nat) (s : CGState) :
    (gen_params ps i s).epilogue_label = s.epilogue_label := by
  induction ps generalizing i s with
  | nil => rfl
  | cons p rest ih =>
    simp only [gen_params]
    rw [ih]
    rfl

/-- A `.Lfunc_<n>:` epilogue-label line never matches the branch-target
recognizer: the character after `.L` is `f`, not a digit. -/
theorem isDotL_func_label (x : String) :
    isDotLLabelLine ((".Lfunc_" ++ x) ++ ":") = false := rfl

/-- `gen_function` extends the state with fresh branch-target labels
only, provided the function-name line is not itself shaped like one
(no lexable identifier starts with a dot, so this holds for every
parsed program). -/
theorem gen_function_labels (f : Function) (s : CGState) (s1 : CGState)
    (hname : isDotLLabelLine (f.name ++ ":") = false)
    (h : gen_function f s = .ok s1) : labelExt s s1 := by
  unfold gen_function at h
  by_cases hp : f.params.length > 6
  · simp [hp] at h
  · rw [if_neg hp] at h
    dsimp only at h
    cases hgb : gen_block f.body (gen_params f.params 0
        (emit "    push r13" (emit "    push r12" (emit "    push rbx"
          (emit "    mov rbp, rsp" (emit "    push rbp" (emit (f.name ++ ":")
            { s with var_offsets := [], next_var_offset := -24,
                     reg_used0 := false, reg_used1 := false, reg_used2 := false,
                     epilogue_label := ".Lfunc_" ++ natToDec s.label_counter,
                     label_counter := s.label_counter + 1 }))))))) with
    | error exc =>
      rw [hgb] at h
      simp only [bind, Except.bind] at h
      exact Except.noConfusion h
    | ok sb =>
      rw [hgb] at h
      simp only [bind, Except.bind] at h
      simp at h
      have hepi : sb.epilogue_label = ".Lfunc_" ++ natToDec s.label_counter := by
        rw [gen_block_epi f.body _ sb hgb, gen_params_epilogue]
        rfl
      have hA : labelExt s
          { s with var_offsets := [], next_var_offset := -24,
                   reg_used0 := false, reg_used1 := false, reg_used2 := false,
                   epilogue_label := ".Lfunc_" ++ natToDec s.label_counter,
                   label_counter := s.label_counter + 1 } :=
        ⟨Nat.le_succ _, [], by simp, labelLinesIn_instr _ _ [] (by simp)⟩
      have hB : instrExt
          { s with var_offsets := [], next_var_offset := -24,
                   reg_used0 := false, reg_used1 := false, reg_used2 := false,
                   epilogue_label := ".Lfunc_" ++ natToDec s.label_counter,
                   label_counter := s.label_counter + 1 }
          (gen_params f.params 0
            (emit "    push r13" (emit "    push r12" (emit "    push rbx"
              (emit "    mov rbp, rsp" (emit "    push rbp" (emit (f.name ++ ":")
                { s with var_offsets := [], next_var_offset := -24,
                         reg_used0 := false, reg_used1 := false,
                         reg_used2 := false,
                         epilogue_label := ".Lfunc_" ++ natToDec s.label_counter,
                         label_counter := s.label_counter + 1 }))))))) :=
        instrExt_trans (instrExt_emit _ hname _)
          (instrExt_trans (instrExt_emit "    push rbp" (by rfl) _)
            (instrExt_trans (instrExt_emit "    mov rbp, rsp" (by rfl) _)
              (instrExt_trans (instrExt_emit "    push rbx" (by rfl) _)
                (instrExt_trans (instrExt_emit "    push r12" (by rfl) _)
                  (instrExt_trans (instrExt_emit "    push r13" (by rfl) _)
                    (gen_params_instr f.params 0 _))))))
      have hD : labelExt _ sb := gen_block_labels f.body _ sb hgb
      have hE : instrExt sb s1 := by
        rw [← h]
        refine instrExt_trans (instrExt_emit (sb.epilogue_label ++ ":")
          (by rw [hepi]; exact isDotL_func_label _) _) ?_
        exact instrExt_trans (instrExt_emit "    lea rsp, [rbp - 24]" (by rfl) _)
          (instrExt_trans (instrExt_emit "    pop r13" (by rfl) _)
            (instrExt_trans (instrExt_emit "    pop r12" (by rfl) _)
              (instrExt_trans (instrExt_emit "    pop rbx" (by rfl) _)
                (instrExt_trans (instrExt_emit "    pop rbp" (by rfl) _)
                  (instrExt_emit "    ret" (by rfl) _)))))
      exact labelExt_trans hA (labelExt_trans (labelExt_of_instr hB)
        (labelExt_trans hD (labelExt_of_instr hE)))

/-- The whole-program loop extends the state with fresh branch-target
labels only. -/
theorem gen_functions_labels (fs : List Function)
    (hnames : ∀ f ∈ fs, isDotLLabelLine (f.name ++ ":") = false) :
    ∀ (s s1 : CGState), gen_functions fs s = .ok s1 → labelExt s s1 := by
  revert hnames
  induction fs with
  | nil =>
    intro hnames s s1 h
    simp only [gen_functions] at h
    simp at h
    subst h
    exact labelExt_of_instr (instrExt_refl s)
  | cons f rest ih =>
    intro hnames s s1 h
    simp only [gen_functions] at h
    cases hg : gen_function f s with
    | error exc =>
      rw [hg] at h
      simp only [bind, Except.bind] at h
      exact Except.noConfusion h
    | ok sa =>
      rw [hg] at h
      simp only [bind, Except.bind] at h
      exact labelExt_trans
        (gen_function_labels f s sa (hnames f (by simp)) hg)
        (ih (fun g hgm => hnames g (by simp [hgm])) sa s1 h)

/-- C9: for every program accepted by codegen, the `.L<n>`
label-definition lines emitted for `IfStmt`/`WhileStmt` nodes are
pairwise distinct across the whole assembly output (across functions
included), and every such label is drawn from the shared counter at or
above its starting value 2.  The hypothesis that no function-name line
is itself shaped like `.L<digits>:` holds for every parsed program,
since no lexable identifier starts with a dot. -/
theorem C9_branch_labels_unique (p : Program) (s : CGState)
    (hnames : ∀ f ∈ p.functions, isDotLLabelLine (f.name ++ ":") = false)
    (h : Codegen p = .ok s) :
    (s.lines.filter (fun l => isDotLLabelLine l)).Nodup ∧
    ∀ l ∈ s.lines, isDotLLabelLine l = true →
      ∃ k, l = ".L" ++ natToDec k ++ ":" ∧ 2 ≤ k := by
  unfold Codegen at h
  by_cases hm : p.functions.any (fun f => f.name = "main")
  · rw [if_neg (by simp [hm])] at h
    obtain ⟨hle, d, hl, hno, hmem⟩ :=
      gen_functions_labels p.functions hnames initCG s h
    have hl2 : s.lines = d := by
      rw [hl]
      rfl
    rw [hl2]
    exact ⟨hno, fun l hml ht =>
      match hmem l hml ht with
      | ⟨k, hk, h2, _⟩ => ⟨k, hk, h2⟩⟩
  · rw [if_pos (by simp [hm])] at h
    exact Except.noConfusion h

/-- The two-function program used to witness C9: an `IfStmt` in
`check` and a `WhileStmt` in `main`. -/
def P9 : Program :=
  ⟨[⟨"check", [],
      .cons (.IfStmt (.IntLiteral 1) (.cons (.ReturnStmt (.IntLiteral 3)) .nil))
        (.cons (.ReturnStmt (.IntLiteral 0)) .nil)⟩,
    ⟨"main", [],
      .cons (.WhileStmt (.IntLiteral 0) (.cons (.ExprStmt (.IntLiteral 5)) .nil))
        (.cons (.ReturnStmt (.IntLiteral 1)) .nil)⟩]⟩

/-- The state codegen produces for `P9`: branch labels `.L3`/`.L4` in
`check` and `.L6`/`.L7` in `main`, all distinct. -/
def S9 : CGState :=
  ⟨8, -24, false, false, false, [], ".Lfunc_5",
   ["check:", "    push rbp", "    mov rbp, rsp", "    push rbx",
    "    push r12", "    push r13", "    mov ebx, 1", "    test ebx, ebx",
    "    je .L3", "    mov ebx, 3", "    mov eax, ebx", "    jmp .Lfunc_2",
    "    jmp .L4", ".L3:", ".L4:", "    mov ebx, 0", "    mov eax, ebx",
    "    jmp .Lfunc_2", ".Lfunc_2:", "    lea rsp, [rbp - 24]",
    "    pop r13", "    pop r12", "    pop rbx", "    pop rbp", "    ret",
    "main:", "    push rbp", "    mov rbp, rsp", "    push rbx",
    "    push r12", "    push r13", ".L6:", "    mov ebx, 0",
    "    test ebx, ebx", "    je .L7", "    mov ebx, 5", "    jmp .L6",
    ".L7:", "    mov ebx, 1", "    mov eax, ebx", "    jmp .Lfunc_5",
    ".Lfunc_5:", "    lea rsp, [rbp - 24]", "    pop r13", "    pop r12",
    "    pop rbx", "    pop rbp", "    ret"]⟩

/-- The state after generating `check` alone. -/
def S9check : CGState :=
  ⟨5, -24, false, false, false, [], ".Lfunc_2",
   ["check:", "    push rbp", "    mov rbp, rsp", "    push rbx",
    "    push r12", "    push r13", "    mov ebx, 1", "    test ebx, ebx",
    "    je .L3", "    mov ebx, 3", "    mov eax, ebx", "    jmp .Lfunc_2",
    "    jmp .L4", ".L3:", ".L4:", "    mov ebx, 0", "    mov eax, ebx",
    "    jmp .Lfunc_2", ".Lfunc_2:", "    lea rsp, [rbp - 24]",
    "    pop r13", "    pop r12", "    pop rbx", "    pop rbp", "    ret"]⟩

theorem codegen_P9_check :
    gen_function ⟨"check", [],
      .cons (.IfStmt (.IntLiteral 1) (.cons (.ReturnStmt (.IntLiteral 3)) .nil))
        (.cons (.ReturnStmt (.IntLiteral 0)) .nil)⟩ initCG = .ok S9check := rfl

theorem codegen_P9_main :
    gen_function ⟨"main", [],
      .cons (.WhileStmt (.IntLiteral 0) (.cons (.ExprStmt (.IntLiteral 5)) .nil))
        (.cons (.ReturnStmt (.IntLiteral 1)) .nil)⟩ S9check = .ok S9 := rfl

/-- Codegen of the witness program, composed function by function. -/
theorem codegen_P9 : Codegen P9 = .ok S9 := by
  show gen_functions
    [⟨"check", [],
       .cons (.IfStmt (.IntLiteral 1) (.cons (.ReturnStmt (.IntLiteral 3)) .nil))
         (.cons (.ReturnStmt (.IntLiteral 0)) .nil)⟩,
     ⟨"main", [],
       .cons (.WhileStmt (.IntLiteral 0) (.cons (.ExprStmt (.IntLiteral 5)) .nil))
         (.cons (.ReturnStmt (.IntLiteral 1)) .nil)⟩] initCG = .ok S9
  simp only [gen_functions, bind, Except.bind]
  rw [codegen_P9_check]
  simp only [Except.bind]
  rw [codegen_P9_main]

/-- Witness for C9: codegen accepts `P9`, and its four branch-target
label lines (`.L3`/`.L4` in `check`, `.L6`/`.L7` in `main`) are
pairwise distinct, each drawn from counter values at least 2. -/
theorem C9_branch_labels_unique_witness :
    Codegen P9 = .ok S9 ∧
    ((S9.lines.filter (fun l => isDotLLabelLine l)).Nodup ∧
     ∀ l ∈ S9.lines, isDotLLabelLine l = true →
       ∃ k, l = ".L" ++ natToDec k ++ ":" ∧ 2 ≤ k) :=
  ⟨codegen_P9, C9_branch_labels_unique P9 S9 (by decide) codegen_P9⟩
